import Mathlib

/-!
Verification development for the MarlinUtil HelixClass component.

The repository ships only the interface HelixClass.h: a utility class for a
charged-particle helix in a uniform magnetic field along z, with three
initializers (Cartesian position/momentum, slope parameterisation, canonical
LEP parameters), accessors, and geometric queries (intersections with planes,
cylinders, distances).  The method bodies (HelixClass.cc) are not part of the
sources, so every operation below is modelled from the specification document
accompanying the header; each such definition carries a doc comment saying so.
Machine floats are modelled by real numbers; tolerance claims become exact
equalities over the reals.
-/

noncomputable section

/-- Points and vectors are triples of reals, matching the float[3] arrays. -/
abbrev V3 : Type := ℝ × ℝ × ℝ

/-- Modelled from the spec: the curvature constant FCT = 2.99792458e-4 relating
transverse momentum (GeV), field (Tesla) and radius (mm); a process-wide
constant (spec section 9), stored per object as _FCT in the header. -/
def FCT : ℝ := 2.99792458e-4

/-- Modelled from the spec: the two-argument arctangent used throughout the
missing HelixClass.cc for azimuths, with range (-pi, pi], embedded as the
complex argument of x + i y. -/
def atan2 (y x : ℝ) : ℝ := Complex.arg ⟨x, y⟩

/-- Modelled from the spec: the sign of charge times field fixing the sense of
rotation of the helix in the transverse plane (spec section 4.1). -/
def rotSign (q B : ℝ) : ℝ := Real.sign (q * B)

/-- State of a HelixClass object: one field per private data member of the
header (the per-object copies of the constants pi, 2pi, pi/2 and FCT are kept
as the global constants above, spec section 9). -/
structure HelixClass where
  momentum : V3
  referencePoint : V3
  phi0 : ℝ
  d0 : ℝ
  z0 : ℝ
  omega : ℝ
  tanLambda : ℝ
  pxy : ℝ
  charge : ℝ
  bField : ℝ
  radius : ℝ
  xCentre : ℝ
  yCentre : ℝ
  phiRefPoint : ℝ
  phiAtPCA : ℝ
  xAtPCA : ℝ
  yAtPCA : ℝ
  pxAtPCA : ℝ
  pyAtPCA : ℝ
  phiMomRefPoint : ℝ
  xStart : V3
  xEnd : V3
  bZ : ℝ
  phiZ : ℝ

/-- Modelled from the spec: the default-constructed object before any of the
three initializers runs (the constructor only sets numeric constants). -/
def HelixClass.init : HelixClass where
  momentum := (0, 0, 0)
  referencePoint := (0, 0, 0)
  phi0 := 0
  d0 := 0
  z0 := 0
  omega := 0
  tanLambda := 0
  pxy := 0
  charge := 0
  bField := 0
  radius := 0
  xCentre := 0
  yCentre := 0
  phiRefPoint := 0
  phiAtPCA := 0
  xAtPCA := 0
  yAtPCA := 0
  pxAtPCA := 0
  pyAtPCA := 0
  phiMomRefPoint := 0
  xStart := (0, 0, 0)
  xEnd := (0, 0, 0)
  bZ := 0
  phiZ := 0

namespace VP

/-- Modelled from the spec: transverse momentum magnitude in Initialize_VP. -/
def pxy (mom : V3) : ℝ := Real.sqrt (mom.1 ^ 2 + mom.2.1 ^ 2)

/-- Modelled from the spec: radius = pxy / (FCT * |B|) in Initialize_VP; when
the transverse momentum vanishes this is 0 (straight-line degeneration). -/
def radius (mom : V3) (B : ℝ) : ℝ := pxy mom / (FCT * |B|)

/-- Modelled from the spec: azimuth of the momentum vector at the reference
point. -/
def phiMom (mom : V3) : ℝ := atan2 mom.2.1 mom.1

/-- Modelled from the spec: x of the circle centre, obtained by rotating the
momentum direction by -(charge * sign B) * 90 degrees and advancing by the
radius from the reference point. -/
def xCentre (pos mom : V3) (q B : ℝ) : ℝ :=
  pos.1 + radius mom B * Real.cos (phiMom mom - rotSign q B * (Real.pi / 2))

/-- Modelled from the spec: y of the circle centre. -/
def yCentre (pos mom : V3) (q B : ℝ) : ℝ :=
  pos.2.1 + radius mom B * Real.sin (phiMom mom - rotSign q B * (Real.pi / 2))

/-- Modelled from the spec: distance from the origin to the circle centre. -/
def dCentre (pos mom : V3) (q B : ℝ) : ℝ :=
  Real.sqrt (xCentre pos mom q B ^ 2 + yCentre pos mom q B ^ 2)

/-- Modelled from the spec: phase (w.r.t. the circle centre) of the point of
closest approach of the circle to the origin. -/
def phiPCA (pos mom : V3) (q B : ℝ) : ℝ :=
  atan2 (-(yCentre pos mom q B)) (-(xCentre pos mom q B))

/-- Modelled from the spec: x of the point of closest approach. -/
def xAtPCA (pos mom : V3) (q B : ℝ) : ℝ :=
  xCentre pos mom q B + radius mom B * Real.cos (phiPCA pos mom q B)

/-- Modelled from the spec: y of the point of closest approach. -/
def yAtPCA (pos mom : V3) (q B : ℝ) : ℝ :=
  yCentre pos mom q B + radius mom B * Real.sin (phiPCA pos mom q B)

/-- Modelled from the spec: azimuth of the momentum at the point of closest
approach, the canonical phi0. -/
def phi0 (pos mom : V3) (q B : ℝ) : ℝ :=
  phiPCA pos mom q B - rotSign q B * (Real.pi / 2)

/-- Modelled from the spec: signed transverse impact parameter, chosen so that
the PCA point is d0 * (-sin phi0, cos phi0) as the canonical initializer
requires. -/
def d0 (pos mom : V3) (q B : ℝ) : ℝ :=
  rotSign q B * (radius mom B - dCentre pos mom q B)

/-- Modelled from the spec: tangent of the dip angle, pz / pxy. -/
def tanLambda (mom : V3) : ℝ := mom.2.2 / pxy mom

/-- Modelled from the spec: phase (w.r.t. the circle centre) of the reference
point. -/
def phiRefPt (pos mom : V3) (q B : ℝ) : ℝ :=
  atan2 (pos.2.1 - yCentre pos mom q B) (pos.1 - xCentre pos mom q B)

/-- Modelled from the spec: z of the point of closest approach, obtained by
propagating from the reference point with the constant pitch tanLambda. -/
def z0 (pos mom : V3) (q B : ℝ) : ℝ :=
  pos.2.2 -
    rotSign q B * radius mom B * tanLambda mom *
      (phiPCA pos mom q B - phiRefPt pos mom q B)

/-- Modelled from the spec: signed curvature, charge * sign(B) / radius (0 when
the radius degenerates to 0). -/
def omega (mom : V3) (q B : ℝ) : ℝ := rotSign q B / radius mom B

end VP

/-- Modelled from the spec: Initialize_VP(pos, mom, q, B) builds the full
internal state from the Cartesian data (spec section 4.1); declared in
HelixClass.h line 72, body absent from the sources. -/
def Initialize_VP (h : HelixClass) (pos mom : V3) (q B : ℝ) : HelixClass :=
  { h with
    momentum := mom
    referencePoint := pos
    charge := q
    bField := B
    pxy := VP.pxy mom
    radius := VP.radius mom B
    xCentre := VP.xCentre pos mom q B
    yCentre := VP.yCentre pos mom q B
    phiMomRefPoint := VP.phiMom mom
    phiRefPoint := VP.phiRefPt pos mom q B
    phiAtPCA := VP.phiPCA pos mom q B
    xAtPCA := VP.xAtPCA pos mom q B
    yAtPCA := VP.yAtPCA pos mom q B
    pxAtPCA := VP.pxy mom * Real.cos (VP.phi0 pos mom q B)
    pyAtPCA := VP.pxy mom * Real.sin (VP.phi0 pos mom q B)
    phi0 := VP.phi0 pos mom q B
    d0 := VP.d0 pos mom q B
    z0 := VP.z0 pos mom q B
    omega := VP.omega mom q B
    tanLambda := VP.tanLambda mom }

namespace Canon

/-- Modelled from the spec: radius = 1 / |omega| in Initialize_Canonical. -/
def radius (omega : ℝ) : ℝ := 1 / |omega|

/-- Modelled from the spec: transverse momentum reconstructed from the radius
and the field, pxy = FCT * |B| * radius. -/
def pxy (omega B : ℝ) : ℝ := FCT * |B| * radius omega

/-- Modelled from the spec: x of the point of closest approach,
-d0 * sin(phi0). -/
def xPCA (phi0 d0 : ℝ) : ℝ := -d0 * Real.sin phi0

/-- Modelled from the spec: y of the point of closest approach,
d0 * cos(phi0). -/
def yPCA (phi0 d0 : ℝ) : ℝ := d0 * Real.cos phi0

/-- Modelled from the spec: x of the circle centre, from the PCA point and the
rotation sense given by the sign of omega. -/
def xCentre (phi0 d0 omega : ℝ) : ℝ :=
  xPCA phi0 d0 + radius omega * Real.cos (phi0 - Real.sign omega * (Real.pi / 2))

/-- Modelled from the spec: y of the circle centre. -/
def yCentre (phi0 d0 omega : ℝ) : ℝ :=
  yPCA phi0 d0 + radius omega * Real.sin (phi0 - Real.sign omega * (Real.pi / 2))

end Canon

/-- Modelled from the spec: Initialize_Canonical(phi0, d0, z0, omega,
tanlambda, B), the canonical LEP-wise initializer (spec section 4.1); declared
in HelixClass.h lines 102-103, body absent from the sources.  The reference
point is taken as the PCA point and the momentum is the momentum at the PCA. -/
def Initialize_Canonical (h : HelixClass)
    (phi0 d0 z0 omega tanlambda B : ℝ) : HelixClass :=
  { h with
    phi0 := phi0
    d0 := d0
    z0 := z0
    omega := omega
    tanLambda := tanlambda
    charge := Real.sign omega * Real.sign B
    bField := B
    radius := Canon.radius omega
    pxy := Canon.pxy omega B
    momentum :=
      (Canon.pxy omega B * Real.cos phi0, Canon.pxy omega B * Real.sin phi0,
        tanlambda * Canon.pxy omega B)
    referencePoint := (Canon.xPCA phi0 d0, Canon.yPCA phi0 d0, z0)
    xAtPCA := Canon.xPCA phi0 d0
    yAtPCA := Canon.yPCA phi0 d0
    pxAtPCA := Canon.pxy omega B * Real.cos phi0
    pyAtPCA := Canon.pxy omega B * Real.sin phi0
    phiMomRefPoint := phi0
    xCentre := Canon.xCentre phi0 d0 omega
    yCentre := Canon.yCentre phi0 d0 omega
    phiAtPCA :=
      atan2 (Canon.yPCA phi0 d0 - Canon.yCentre phi0 d0 omega)
        (Canon.xPCA phi0 d0 - Canon.xCentre phi0 d0 omega)
    phiRefPoint :=
      atan2 (Canon.yPCA phi0 d0 - Canon.yCentre phi0 d0 omega)
        (Canon.xPCA phi0 d0 - Canon.xCentre phi0 d0 omega) }

namespace Bz

/-- Modelled from the spec: transverse momentum reconstructed from radius and
field in Initialize_BZ. -/
def pxy (radius B : ℝ) : ℝ := FCT * |B| * radius

/-- Modelled from the spec: tanLambda reconstructed from bZ and the radius
(bZ relates dz/dphi to the pitch), with the sign of pz taken from signPz. -/
def tanLambda (radius bZ signPz : ℝ) : ℝ :=
  Real.sign signPz * (1 / (radius * |bZ|))

/-- Modelled from the spec: rotation sense of the circle implied by the slope
parameterisation; the phase advances as bZ * z and z advances with the sign of
signPz. -/
def rotSense (bZ signPz : ℝ) : ℝ := -Real.sign (bZ * signPz)

/-- Modelled from the spec: phase of the reference point, anchored by zBegin as
bZ * zBegin + phi0. -/
def phiBeg (bZ phi0 zBegin : ℝ) : ℝ := bZ * zBegin + phi0

end Bz

/-- Modelled from the spec: Initialize_BZ(xCentre, yCentre, radius, bZ, phi0,
B, signPz, zBegin), the slope parameterisation x = xC + R cos(bZ z + phi0),
y = yC + R sin(bZ z + phi0) (spec section 4.1); declared in HelixClass.h lines
88-90, body absent from the sources.  Stores the circle data directly and
reconstructs momentum and canonical parameters from the circle geometry. -/
def Initialize_BZ (h : HelixClass)
    (xCentre yCentre radius bZ phi0 B signPz zBegin : ℝ) : HelixClass :=
  { h with
    radius := radius
    xCentre := xCentre
    yCentre := yCentre
    bZ := bZ
    phiZ := phi0
    bField := B
    pxy := Bz.pxy radius B
    tanLambda := Bz.tanLambda radius bZ signPz
    charge := Bz.rotSense bZ signPz * Real.sign B
    omega := Bz.rotSense bZ signPz / radius
    referencePoint :=
      (xCentre + radius * Real.cos (Bz.phiBeg bZ phi0 zBegin),
        yCentre + radius * Real.sin (Bz.phiBeg bZ phi0 zBegin), zBegin)
    momentum :=
      (Bz.pxy radius B *
          Real.cos (Bz.phiBeg bZ phi0 zBegin - Bz.rotSense bZ signPz * (Real.pi / 2)),
        Bz.pxy radius B *
          Real.sin (Bz.phiBeg bZ phi0 zBegin - Bz.rotSense bZ signPz * (Real.pi / 2)),
        Bz.tanLambda radius bZ signPz * Bz.pxy radius B)
    phiRefPoint := Bz.phiBeg bZ phi0 zBegin
    phiMomRefPoint :=
      Bz.phiBeg bZ phi0 zBegin - Bz.rotSense bZ signPz * (Real.pi / 2)
    phiAtPCA := atan2 (-yCentre) (-xCentre)
    phi0 := atan2 (-yCentre) (-xCentre) - Bz.rotSense bZ signPz * (Real.pi / 2)
    d0 := Bz.rotSense bZ signPz * (radius - Real.sqrt (xCentre ^ 2 + yCentre ^ 2))
    z0 := zBegin -
      Bz.rotSense bZ signPz * radius * Bz.tanLambda radius bZ signPz *
        (atan2 (-yCentre) (-xCentre) - Bz.phiBeg bZ phi0 zBegin)
    xAtPCA := xCentre + radius * Real.cos (atan2 (-yCentre) (-xCentre))
    yAtPCA := yCentre + radius * Real.sin (atan2 (-yCentre) (-xCentre))
    pxAtPCA := Bz.pxy radius B *
      Real.cos (atan2 (-yCentre) (-xCentre) - Bz.rotSense bZ signPz * (Real.pi / 2))
    pyAtPCA := Bz.pxy radius B *
      Real.sin (atan2 (-yCentre) (-xCentre) - Bz.rotSense bZ signPz * (Real.pi / 2)) }

/-- Translated from HelixClass.h: getMomentum returns the stored momentum. -/
def getMomentum (h : HelixClass) : V3 := h.momentum

/-- Translated from HelixClass.h: getReferencePoint returns the stored
reference point. -/
def getReferencePoint (h : HelixClass) : V3 := h.referencePoint

/-- Translated from HelixClass.h: getPhi0. -/
def getPhi0 (h : HelixClass) : ℝ := h.phi0

/-- Translated from HelixClass.h: getD0. -/
def getD0 (h : HelixClass) : ℝ := h.d0

/-- Translated from HelixClass.h: getZ0. -/
def getZ0 (h : HelixClass) : ℝ := h.z0

/-- Translated from HelixClass.h: getOmega. -/
def getOmega (h : HelixClass) : ℝ := h.omega

/-- Translated from HelixClass.h: getTanLambda. -/
def getTanLambda (h : HelixClass) : ℝ := h.tanLambda

/-- Translated from HelixClass.h: getPXY. -/
def getPXY (h : HelixClass) : ℝ := h.pxy

/-- Translated from HelixClass.h: getXC. -/
def getXC (h : HelixClass) : ℝ := h.xCentre

/-- Translated from HelixClass.h: getYC. -/
def getYC (h : HelixClass) : ℝ := h.yCentre

/-- Translated from HelixClass.h: getRadius. -/
def getRadius (h : HelixClass) : ℝ := h.radius

/-- Translated from HelixClass.h: getBz. -/
def getBz (h : HelixClass) : ℝ := h.bZ

/-- Translated from HelixClass.h: getPhiZ. -/
def getPhiZ (h : HelixClass) : ℝ := h.phiZ

/-- Translated from HelixClass.h: getCharge. -/
def getCharge (h : HelixClass) : ℝ := h.charge

/-- Translated from HelixClass.h line 234: getStartingPoint returns _xStart. -/
def getStartingPoint (h : HelixClass) : V3 := h.xStart

/-- Translated from HelixClass.h line 239: getEndPoint returns _xEnd. -/
def getEndPoint (h : HelixClass) : V3 := h.xEnd

/-- Modelled from the spec: setHelixEdges stores the two boundary markers and
nothing else (spec section 4.9); declared in HelixClass.h line 229, body absent
from the sources. -/
def setHelixEdges (h : HelixClass) (xStart xEnd : V3) : HelixClass :=
  { h with xStart := xStart, xEnd := xEnd }

/-- Modelled from the spec: phase, with respect to the stored circle centre, of
an arbitrary reference point handed to a query method. -/
def phiOf (h : HelixClass) (x y : ℝ) : ℝ := atan2 (y - h.yCentre) (x - h.xCentre)

/-- Modelled from the spec: z advances linearly with the phase; along the
direction of motion the phase changes by -rotSign per unit, so
z(phi) = ref_z - rotSign * radius * tanLambda * (phi - phi_ref). -/
def zAtPhase (h : HelixClass) (phi : ℝ) : ℝ :=
  h.referencePoint.2.2 -
    rotSign h.charge h.bField * h.radius * h.tanLambda *
      (phi - phiOf h h.referencePoint.1 h.referencePoint.2.1)

/-- Modelled from the spec: the point of the helix at circle phase phi, used to
build targets lying exactly on the trajectory (spec section 8). -/
def helixPoint (h : HelixClass) (phi : ℝ) : V3 :=
  (h.xCentre + h.radius * Real.cos phi, h.yCentre + h.radius * Real.sin phi,
    zAtPhase h phi)

/-- Modelled from the spec: forward arc angle (in [0, 2 pi)) swept from the
reference point to the transverse point p along the direction of motion; the
direction of travel of the phase is -rotSign. -/
def fwdAngle (h : HelixClass) (ref : V3) (p : ℝ × ℝ) : ℝ :=
  toIcoMod Real.two_pi_pos 0
    (rotSign h.charge h.bField * (phiOf h ref.1 ref.2.1 - phiOf h p.1 p.2))

/-- Modelled from the spec: getPointInZ(zLine, ref, point) intersects the helix
with the horizontal plane z = zLine in closed form (spec section 4.4): the
phase advances by -rotSign * (zLine - ref_z) / (radius * tanLambda) and the
returned scalar is the path length over the momentum,
(zLine - ref_z) / (tanLambda * pxy).  Declared in HelixClass.h line 184, body
absent from the sources. -/
def getPointInZ (h : HelixClass) (zLine : ℝ) (ref : V3) : ℝ × V3 :=
  ((zLine - ref.2.2) / (h.tanLambda * h.pxy),
    (h.xCentre +
        h.radius *
          Real.cos (phiOf h ref.1 ref.2.1 -
            rotSign h.charge h.bField * (zLine - ref.2.2) / (h.radius * h.tanLambda)),
      h.yCentre +
        h.radius *
          Real.sin (phiOf h ref.1 ref.2.1 -
            rotSign h.charge h.bField * (zLine - ref.2.2) / (h.radius * h.tanLambda)),
      zLine))

/-- Modelled from the spec: the true minimum over path length of the 3D
Euclidean distance from the helix to an arbitrary point (spec section 4.5:
the 3D distance is NOT simply the Euclidean norm of the transverse and
longitudinal mismatches).  The helix is parameterised by its unwrapped phase
(z varies linearly with it), so the minimum is the infimum of the pointwise
distance over that parameter. -/
def dist3D (h : HelixClass) (xPoint : V3) : ℝ :=
  sInf (Set.range fun phi : ℝ =>
    Real.sqrt (((helixPoint h phi).1 - xPoint.1) ^ 2 +
      ((helixPoint h phi).2.1 - xPoint.2.1) ^ 2 +
      ((helixPoint h phi).2.2 - xPoint.2.2) ^ 2))

/-- Modelled from the spec: getDistanceToPoint(xPoint, Distance) (spec section
4.5).  Distance[0] is the transverse distance from the target to the circle,
Distance[1] the z mismatch at the phase of the circle point nearest to the
target (with the number of whole turns chosen to minimise it), Distance[2]
the true minimum over path length of the 3D Euclidean distance (not the
quadrature of the first two).  Declared in HelixClass.h line 195, body absent
from the sources. -/
def getDistanceToPoint (h : HelixClass) (xPoint : V3) : ℝ × ℝ × ℝ :=
  let dx := xPoint.1 - h.xCentre
  let dy := xPoint.2.1 - h.yCentre
  let distXY := |Real.sqrt (dx ^ 2 + dy ^ 2) - h.radius|
  let phi := atan2 dy dx
  let phir := phiOf h h.referencePoint.1 h.referencePoint.2.1
  let pitch := -(rotSign h.charge h.bField * h.radius * h.tanLambda)
  let n : ℤ :=
    if pitch = 0 then 0
    else
      round ((xPoint.2.2 - h.referencePoint.2.2 - pitch * (phi - phir)) /
        (2 * Real.pi * pitch))
  let distZ :=
    |h.referencePoint.2.2 + pitch * (phi - phir + 2 * Real.pi * n) - xPoint.2.2|
  (distXY, distZ, dist3D h xPoint)

/-- Modelled from the spec: the two candidate intersections of the circle with
the transverse trace of a plane parallel to z (spec section 4.3); the plane
holds (x0, y0) with in-plane normal (ax, ay), its trace is the line
(x0, y0) + t * (-ay, ax), and the candidates are the roots of the quadratic
circle-line system (coincident at a tangency). -/
def xyCandidates (h : HelixClass) (x0 y0 ax ay : ℝ) : (ℝ × ℝ) × (ℝ × ℝ) :=
  let aa := ax ^ 2 + ay ^ 2
  let bb := -ay * (x0 - h.xCentre) + ax * (y0 - h.yCentre)
  let cc := (x0 - h.xCentre) ^ 2 + (y0 - h.yCentre) ^ 2 - h.radius ^ 2
  let root := Real.sqrt (bb ^ 2 - aa * cc)
  ((x0 - ((-bb - root) / aa) * ay, y0 + ((-bb - root) / aa) * ax),
    (x0 - ((-bb + root) / aa) * ay, y0 + ((-bb + root) / aa) * ax))

/-- Modelled from the spec: straight-line fallback of getPointInXY for a
degenerate (radius 0) helix: the transverse trajectory is the line through the
reference point along the momentum direction, intersected with the plane; the
returned scalar is the signed line parameter, negative when the intersection
lies behind the reference point along the direction of motion. -/
def getPointInXY_line (h : HelixClass) (x0 y0 ax ay : ℝ) (ref : V3) :
    Option (ℝ × V3) :=
  let den := h.momentum.1 * ax + h.momentum.2.1 * ay
  if den = 0 then none
  else
    let t := ((x0 - ref.1) * ax + (y0 - ref.2.1) * ay) / den
    some (t,
      (ref.1 + t * h.momentum.1, ref.2.1 + t * h.momentum.2.1,
        ref.2.2 + t * h.momentum.2.2))

/-- Modelled from the spec: circle branch of getPointInXY (spec section 4.3):
solve the circle-line quadratic; with no real root (or a degenerate plane
normal) signal no intersection; otherwise take the candidate with the smallest
forward arc length from the reference point along the direction of travel, and
return the arc length over the momentum as the scalar. -/
def getPointInXY_circle (h : HelixClass) (x0 y0 ax ay : ℝ) (ref : V3) :
    Option (ℝ × V3) :=
  let aa := ax ^ 2 + ay ^ 2
  let bb := -ay * (x0 - h.xCentre) + ax * (y0 - h.yCentre)
  let cc := (x0 - h.xCentre) ^ 2 + (y0 - h.yCentre) ^ 2 - h.radius ^ 2
  if aa = 0 ∨ bb ^ 2 - aa * cc < 0 then none
  else
    let P1 := (xyCandidates h x0 y0 ax ay).1
    let P2 := (xyCandidates h x0 y0 ax ay).2
    let a1 := fwdAngle h ref P1
    let a2 := fwdAngle h ref P2
    let P := if a1 ≤ a2 then P1 else P2
    some (h.radius * min a1 a2 / h.pxy,
      (P.1, P.2, ref.2.2 + h.tanLambda * h.radius * min a1 a2))

/-- Modelled from the spec: getPointInXY(x0, y0, ax, ay, ref, point)
dispatches on the degenerate radius to the straight-line fallback, otherwise
solves the circle-line intersection (spec section 4.3).  Declared in
HelixClass.h lines 174-175, body absent from the sources. -/
def getPointInXY (h : HelixClass) (x0 y0 ax ay : ℝ) (ref : V3) :
    Option (ℝ × V3) :=
  if h.radius = 0 then getPointInXY_line h x0 y0 ax ay ref
  else getPointInXY_circle h x0 y0 ax ay ref

/-- Modelled from the spec: the two candidate intersections of the helix circle
with the coaxial cylinder circle of radius R, via the radical line of the two
circles (spec section 4.6); coincident at a tangency. -/
def circleCandidates (h : HelixClass) (R : ℝ) : (ℝ × ℝ) × (ℝ × ℝ) :=
  let d2 := h.xCentre ^ 2 + h.yCentre ^ 2
  let k := (d2 + R ^ 2 - h.radius ^ 2) / 2
  let root := Real.sqrt (R ^ 2 * d2 - k ^ 2)
  (((k * h.xCentre - root * h.yCentre) / d2, (k * h.yCentre + root * h.xCentre) / d2),
    ((k * h.xCentre + root * h.yCentre) / d2, (k * h.yCentre - root * h.xCentre) / d2))

/-- Modelled from the spec: straight-line fallback of getPointOnCircle for a
degenerate (radius 0) helix: intersect the line through the reference point
along the momentum with the cylinder of radius R about the z axis. -/
def getPointOnCircle_line (h : HelixClass) (R : ℝ) (ref : V3) :
    Option (ℝ × V3) :=
  let aa := h.momentum.1 ^ 2 + h.momentum.2.1 ^ 2
  let bb := ref.1 * h.momentum.1 + ref.2.1 * h.momentum.2.1
  let cc := ref.1 ^ 2 + ref.2.1 ^ 2 - R ^ 2
  if aa = 0 then if cc = 0 then some (0, ref) else none
  else if bb ^ 2 - aa * cc < 0 then none
  else
    let t1 := (-bb - Real.sqrt (bb ^ 2 - aa * cc)) / aa
    let t2 := (-bb + Real.sqrt (bb ^ 2 - aa * cc)) / aa
    let t := if 0 ≤ t1 then t1 else t2
    some (t,
      (ref.1 + t * h.momentum.1, ref.2.1 + t * h.momentum.2.1,
        ref.2.2 + t * h.momentum.2.2))

/-- Modelled from the spec: circle branch of getPointOnCircle (spec section
4.6): two-circle intersection via the radical line; with no real intersection
(or coincident centres) signal no intersection rather than returning a stale
value; otherwise take the forward solution nearest to the reference point by
arc length in the direction of motion, advance z by tanLambda times the arc,
and return the helix length over the momentum as the generic time. -/
def getPointOnCircle_circle (h : HelixClass) (R : ℝ) (ref : V3) :
    Option (ℝ × V3) :=
  let d2 := h.xCentre ^ 2 + h.yCentre ^ 2
  let k := (d2 + R ^ 2 - h.radius ^ 2) / 2
  if d2 = 0 ∨ R ^ 2 * d2 - k ^ 2 < 0 then none
  else
    let P1 := (circleCandidates h R).1
    let P2 := (circleCandidates h R).2
    let a1 := fwdAngle h ref P1
    let a2 := fwdAngle h ref P2
    let P := if a1 ≤ a2 then P1 else P2
    some (h.radius * min a1 a2 / h.pxy,
      (P.1, P.2, ref.2.2 + h.tanLambda * h.radius * min a1 a2))

/-- Modelled from the spec: getPointOnCircle(Radius, ref, point) dispatches on
the degenerate radius to the straight-line fallback, otherwise intersects the
two circles (spec section 4.6).  Declared in HelixClass.h line 212, body absent
from the sources. -/
def getPointOnCircle (h : HelixClass) (R : ℝ) (ref : V3) : Option (ℝ × V3) :=
  if h.radius = 0 then getPointOnCircle_line h R ref
  else getPointOnCircle_circle h R ref

/-- Modelled from the spec: getExtrapolatedMomentum(pos, momentum) rotates the
transverse momentum to the phase of the circle point nearest to the transverse
projection of pos; pz and the transverse magnitude are unchanged (spec section
4.10).  Declared in HelixClass.h line 254, body absent from the sources. -/
def getExtrapolatedMomentum (h : HelixClass) (pos : V3) : V3 :=
  (h.pxy *
      Real.cos (phiOf h pos.1 pos.2.1 - rotSign h.charge h.bField * (Real.pi / 2)),
    h.pxy *
      Real.sin (phiOf h pos.1 pos.2.1 - rotSign h.charge h.bField * (Real.pi / 2)),
    h.momentum.2.2)

end

/-! Helper lemmas about the embedded two-argument arctangent and rotations. -/

theorem FCT_pos : 0 < FCT := by norm_num [FCT]

theorem complexMk_ne_zero {x y : ℝ} (hxy : ¬(x = 0 ∧ y = 0)) : (⟨x, y⟩ : ℂ) ≠ 0 := by
  rw [Complex.mk_eq_add_mul_I]
  simpa [Complex.ext_iff] using hxy

theorem complexAbs_mk (x y : ℝ) :
    Complex.abs ⟨x, y⟩ = Real.sqrt (x ^ 2 + y ^ 2) := by
  rw [Complex.abs_apply, Complex.normSq_mk]
  congr 1
  ring

theorem atan2_cos {y x : ℝ} (hxy : ¬(x = 0 ∧ y = 0)) :
    Real.cos (atan2 y x) = x / Real.sqrt (x ^ 2 + y ^ 2) := by
  rw [atan2, Complex.cos_arg (complexMk_ne_zero hxy), complexAbs_mk]

theorem atan2_sin (y x : ℝ) :
    Real.sin (atan2 y x) = y / Real.sqrt (x ^ 2 + y ^ 2) := by
  rw [atan2, Complex.sin_arg, complexAbs_mk]

theorem atan2_mem_Ioc (y x : ℝ) : atan2 y x ∈ Set.Ioc (-Real.pi) Real.pi :=
  Complex.arg_mem_Ioc _

theorem atan2_rot_Ioc (r θ : ℝ) (hr : 0 < r) (hθ : θ ∈ Set.Ioc (-Real.pi) Real.pi) :
    atan2 (r * Real.sin θ) (r * Real.cos θ) = θ := by
  rw [atan2, show (⟨r * Real.cos θ, r * Real.sin θ⟩ : ℂ) =
      (r : ℂ) * (Complex.cos θ + Complex.sin θ * Complex.I) by
    rw [Complex.mk_eq_add_mul_I, ← Complex.ofReal_cos, ← Complex.ofReal_sin]
    push_cast
    ring]
  exact Complex.arg_mul_cos_add_sin_mul_I hr hθ

theorem atan2_rot (r θ : ℝ) (hr : 0 < r) :
    ∃ k : ℤ, atan2 (r * Real.sin θ) (r * Real.cos θ) = θ + 2 * Real.pi * k := by
  refine ⟨⌊(Real.pi - θ) / (2 * Real.pi)⌋, ?_⟩
  have h := Complex.arg_mul_cos_add_sin_mul_I_sub hr θ
  rw [atan2, show (⟨r * Real.cos θ, r * Real.sin θ⟩ : ℂ) =
      (r : ℂ) * (Complex.cos θ + Complex.sin θ * Complex.I) by
    rw [Complex.mk_eq_add_mul_I, ← Complex.ofReal_cos, ← Complex.ofReal_sin]
    push_cast
    ring]
  linarith [h]

theorem sign_pm {x : ℝ} (hx : x ≠ 0) : Real.sign x = 1 ∨ Real.sign x = -1 := by
  rcases hx.lt_or_lt with h | h
  · exact Or.inr (Real.sign_of_neg h)
  · exact Or.inl (Real.sign_of_pos h)

theorem rotSign_pm {q B : ℝ} (hq : q = 1 ∨ q = -1) (hB : B ≠ 0) :
    rotSign q B = 1 ∨ rotSign q B = -1 := by
  apply sign_pm
  rcases hq with rfl | rfl
  · simpa using hB
  · simpa using hB

theorem cos_sub_sgn_half_pi {s : ℝ} (x : ℝ) (hs : s = 1 ∨ s = -1) :
    Real.cos (x - s * (Real.pi / 2)) = s * Real.sin x := by
  rcases hs with rfl | rfl
  · rw [one_mul, Real.cos_sub, Real.cos_pi_div_two, Real.sin_pi_div_two]
    ring
  · rw [show x - -1 * (Real.pi / 2) = x + Real.pi / 2 by ring, Real.cos_add,
      Real.cos_pi_div_two, Real.sin_pi_div_two]
    ring

theorem sin_sub_sgn_half_pi {s : ℝ} (x : ℝ) (hs : s = 1 ∨ s = -1) :
    Real.sin (x - s * (Real.pi / 2)) = -(s * Real.cos x) := by
  rcases hs with rfl | rfl
  · rw [one_mul, Real.sin_sub, Real.cos_pi_div_two, Real.sin_pi_div_two]
    ring
  · rw [show x - -1 * (Real.pi / 2) = x + Real.pi / 2 by ring, Real.sin_add,
      Real.cos_pi_div_two, Real.sin_pi_div_two]
    ring

theorem cos_sub_sgn_pi {s : ℝ} (x : ℝ) (hs : s = 1 ∨ s = -1) :
    Real.cos (x - s * Real.pi) = -Real.cos x := by
  rcases hs with rfl | rfl
  · rw [one_mul, Real.cos_sub, Real.cos_pi, Real.sin_pi]
    ring
  · rw [show x - -1 * Real.pi = x + Real.pi by ring, Real.cos_add, Real.cos_pi,
      Real.sin_pi]
    ring

theorem sin_sub_sgn_pi {s : ℝ} (x : ℝ) (hs : s = 1 ∨ s = -1) :
    Real.sin (x - s * Real.pi) = -Real.sin x := by
  rcases hs with rfl | rfl
  · rw [one_mul, Real.sin_sub, Real.cos_pi, Real.sin_pi]
    ring
  · rw [show x - -1 * Real.pi = x + Real.pi by ring, Real.sin_add, Real.cos_pi,
      Real.sin_pi]
    ring

/-! Claim theorems. -/

/-- C10: setHelixEdges(xStart, xEnd) changes only the stored start and end
markers: afterwards getStartingPoint and getEndPoint return the arguments,
while every other getter returns exactly what it returned before the call. -/
theorem setHelixEdges_frame (h : HelixClass) (xs xe : V3) :
    getStartingPoint (setHelixEdges h xs xe) = xs ∧
    getEndPoint (setHelixEdges h xs xe) = xe ∧
    getMomentum (setHelixEdges h xs xe) = getMomentum h ∧
    getReferencePoint (setHelixEdges h xs xe) = getReferencePoint h ∧
    getPhi0 (setHelixEdges h xs xe) = getPhi0 h ∧
    getD0 (setHelixEdges h xs xe) = getD0 h ∧
    getZ0 (setHelixEdges h xs xe) = getZ0 h ∧
    getOmega (setHelixEdges h xs xe) = getOmega h ∧
    getTanLambda (setHelixEdges h xs xe) = getTanLambda h ∧
    getPXY (setHelixEdges h xs xe) = getPXY h ∧
    getXC (setHelixEdges h xs xe) = getXC h ∧
    getYC (setHelixEdges h xs xe) = getYC h ∧
    getRadius (setHelixEdges h xs xe) = getRadius h ∧
    getBz (setHelixEdges h xs xe) = getBz h ∧
    getPhiZ (setHelixEdges h xs xe) = getPhiZ h ∧
    getCharge (setHelixEdges h xs xe) = getCharge h :=
  ⟨rfl, rfl, rfl, rfl, rfl, rfl, rfl, rfl, rfl, rfl, rfl, rfl, rfl, rfl, rfl, rfl⟩

/-- C2: for the circle with centre (10, 0), radius 5, field 1 T, charge +1 the
consistent canonical parameters are phi0 = pi/2, d0 = -5, omega = 1/5; a helix
built by Initialize_Canonical from them and one built by Initialize_BZ from the
circle data agree on getRadius, getXC and getYC (exactly, in the real model),
for every choice of the remaining parameters z0, tanLambda, bZ, phiZ, signPz
and zBegin. -/
theorem bz_canonical_agree (h0 h1 : HelixClass)
    (z0 tanl bZ phiz signPz zBegin : ℝ) :
    getRadius (Initialize_Canonical h0 (Real.pi / 2) (-5) z0 (1 / 5) tanl 1) = 5 ∧
    getXC (Initialize_Canonical h0 (Real.pi / 2) (-5) z0 (1 / 5) tanl 1) = 10 ∧
    getYC (Initialize_Canonical h0 (Real.pi / 2) (-5) z0 (1 / 5) tanl 1) = 0 ∧
    getRadius (Initialize_BZ h1 10 0 5 bZ phiz 1 signPz zBegin) =
      getRadius (Initialize_Canonical h0 (Real.pi / 2) (-5) z0 (1 / 5) tanl 1) ∧
    getXC (Initialize_BZ h1 10 0 5 bZ phiz 1 signPz zBegin) =
      getXC (Initialize_Canonical h0 (Real.pi / 2) (-5) z0 (1 / 5) tanl 1) ∧
    getYC (Initialize_BZ h1 10 0 5 bZ phiz 1 signPz zBegin) =
      getYC (Initialize_Canonical h0 (Real.pi / 2) (-5) z0 (1 / 5) tanl 1) := by
  have hs : Real.sign ((1 : ℝ) / 5) = 1 := Real.sign_of_pos (by norm_num)
  have hrad : getRadius (Initialize_Canonical h0 (Real.pi / 2) (-5) z0 (1 / 5) tanl 1) = 5 := by
    simp only [getRadius, Initialize_Canonical, Canon.radius]
    rw [show |(1 : ℝ) / 5| = 1 / 5 from abs_of_pos (by norm_num)]
    norm_num
  have hx : getXC (Initialize_Canonical h0 (Real.pi / 2) (-5) z0 (1 / 5) tanl 1) = 10 := by
    simp only [getXC, Initialize_Canonical, Canon.xCentre, Canon.xPCA, Canon.radius, hs,
      one_mul, sub_self, Real.cos_zero, Real.sin_pi_div_two]
    rw [show |(1 : ℝ) / 5| = 1 / 5 from abs_of_pos (by norm_num)]
    norm_num
  have hy : getYC (Initialize_Canonical h0 (Real.pi / 2) (-5) z0 (1 / 5) tanl 1) = 0 := by
    simp only [getYC, Initialize_Canonical, Canon.yCentre, Canon.yPCA, Canon.radius, hs,
      one_mul, sub_self, Real.sin_zero, Real.cos_pi_div_two]
    norm_num
  refine ⟨hrad, hx, hy, ?_, ?_, ?_⟩
  · rw [hrad]; rfl
  · rw [hx]; rfl
  · rw [hy]; rfl

/-- C5: the z coordinate of the point returned by getPointInZ equals the
requested zLine (exactly, in the real model), and the returned point lies on
the transverse circle of the helix, for every helix state, target z and
reference point. -/
theorem getPointInZ_z_correct (h : HelixClass) (zLine : ℝ) (ref : V3) :
    (getPointInZ h zLine ref).2.2.2 = zLine ∧
    ((getPointInZ h zLine ref).2.1 - h.xCentre) ^ 2 +
        ((getPointInZ h zLine ref).2.2.1 - h.yCentre) ^ 2 = h.radius ^ 2 := by
  refine ⟨rfl, ?_⟩
  simp only [getPointInZ, add_sub_cancel_left]
  nlinarith [Real.sin_sq_add_cos_sq (phiOf h ref.1 ref.2.1 -
    rotSign h.charge h.bField * (zLine - ref.2.2) / (h.radius * h.tanLambda))]

/-- C4: Initialize_VP with momentum purely along z is total (the model divides
by nothing: the radius is literally 0), getRadius returns 0, and both
getPointInXY and getPointOnCircle on the resulting state take the
straight-line fallback branch instead of the circle formulas. -/
theorem vp_pure_z_degenerate (h0 : HelixClass) (pos : V3)
    (pz q B x0 y0 ax ay R : ℝ) (ref : V3) :
    getRadius (Initialize_VP h0 pos (0, 0, pz) q B) = 0 ∧
    getPointInXY (Initialize_VP h0 pos (0, 0, pz) q B) x0 y0 ax ay ref =
      getPointInXY_line (Initialize_VP h0 pos (0, 0, pz) q B) x0 y0 ax ay ref ∧
    getPointOnCircle (Initialize_VP h0 pos (0, 0, pz) q B) R ref =
      getPointOnCircle_line (Initialize_VP h0 pos (0, 0, pz) q B) R ref := by
  have hr : (Initialize_VP h0 pos (0, 0, pz) q B).radius = 0 := by
    simp [Initialize_VP, VP.radius, VP.pxy]
  exact ⟨hr, by rw [getPointInXY, if_pos hr], by rw [getPointOnCircle, if_pos hr]⟩

/-- Intersection points of the radical-line construction: both candidate
points lie on the helix circle (centre (xc, yc), radius r) and on the cylinder
circle (centre the origin, radius R). -/
theorem radical_points (xc yc r R root k : ℝ) (hd2 : xc ^ 2 + yc ^ 2 ≠ 0)
    (hk : k = (xc ^ 2 + yc ^ 2 + R ^ 2 - r ^ 2) / 2)
    (hroot : root ^ 2 = R ^ 2 * (xc ^ 2 + yc ^ 2) - k ^ 2) :
    (((k * xc - root * yc) / (xc ^ 2 + yc ^ 2) - xc) ^ 2 +
          ((k * yc + root * xc) / (xc ^ 2 + yc ^ 2) - yc) ^ 2 = r ^ 2 ∧
        ((k * xc - root * yc) / (xc ^ 2 + yc ^ 2)) ^ 2 +
          ((k * yc + root * xc) / (xc ^ 2 + yc ^ 2)) ^ 2 = R ^ 2) ∧
      (((k * xc + root * yc) / (xc ^ 2 + yc ^ 2) - xc) ^ 2 +
          ((k * yc - root * xc) / (xc ^ 2 + yc ^ 2) - yc) ^ 2 = r ^ 2 ∧
        ((k * xc + root * yc) / (xc ^ 2 + yc ^ 2)) ^ 2 +
          ((k * yc - root * xc) / (xc ^ 2 + yc ^ 2)) ^ 2 = R ^ 2) := by
  subst hk
  refine ⟨⟨?_, ?_⟩, ⟨?_, ?_⟩⟩ <;> field_simp <;>
    linear_combination (4 * (xc ^ 2 + yc ^ 2)) * hroot

/-- Both candidates of circleCandidates lie on the helix circle and on the
cylinder circle, whenever the discriminant of the two-circle system is
nonnegative and the centre is away from the origin. -/
theorem circleCandidates_on (h : HelixClass) (R : ℝ)
    (hd2 : h.xCentre ^ 2 + h.yCentre ^ 2 ≠ 0)
    (hge : 0 ≤ R ^ 2 * (h.xCentre ^ 2 + h.yCentre ^ 2) -
      ((h.xCentre ^ 2 + h.yCentre ^ 2 + R ^ 2 - h.radius ^ 2) / 2) ^ 2) :
    (((circleCandidates h R).1.1 - h.xCentre) ^ 2 +
          ((circleCandidates h R).1.2 - h.yCentre) ^ 2 = h.radius ^ 2 ∧
        (circleCandidates h R).1.1 ^ 2 + (circleCandidates h R).1.2 ^ 2 = R ^ 2) ∧
      (((circleCandidates h R).2.1 - h.xCentre) ^ 2 +
          ((circleCandidates h R).2.2 - h.yCentre) ^ 2 = h.radius ^ 2 ∧
        (circleCandidates h R).2.1 ^ 2 + (circleCandidates h R).2.2 ^ 2 = R ^ 2) :=
  radical_points h.xCentre h.yCentre h.radius R _ _ hd2 rfl (Real.sq_sqrt hge)

/-- C6: when the helix circle and the cylinder circle have no common point,
getPointOnCircle returns none (a distinguishable NoIntersection signal); when
it returns a point, that point lies at distance R from the origin in the
transverse plane, is one of the two circle-circle intersection candidates, and
its forward arc angle from the reference point (in the direction of motion) is
no larger than that of either candidate.  Hypotheses: nondegenerate radius,
circle centre away from the origin, nonnegative cylinder radius. -/
theorem getPointOnCircle_spec (h : HelixClass) (R : ℝ) (ref : V3)
    (hrad : getRadius h ≠ 0) (hc : ¬(getXC h = 0 ∧ getYC h = 0)) (hR : 0 ≤ R) :
    ((¬∃ p : ℝ × ℝ, (p.1 - getXC h) ^ 2 + (p.2 - getYC h) ^ 2 = getRadius h ^ 2 ∧
        p.1 ^ 2 + p.2 ^ 2 = R ^ 2) → getPointOnCircle h R ref = none) ∧
    (∀ t pt, getPointOnCircle h R ref = some (t, pt) →
      Real.sqrt (pt.1 ^ 2 + pt.2.1 ^ 2) = R ∧
      ((pt.1, pt.2.1) = (circleCandidates h R).1 ∨
        (pt.1, pt.2.1) = (circleCandidates h R).2) ∧
      fwdAngle h ref (pt.1, pt.2.1) ≤ fwdAngle h ref (circleCandidates h R).1 ∧
      fwdAngle h ref (pt.1, pt.2.1) ≤ fwdAngle h ref (circleCandidates h R).2) := by
  have hrad' : h.radius ≠ 0 := hrad
  have hd2 : h.xCentre ^ 2 + h.yCentre ^ 2 ≠ 0 := by
    intro h0
    apply hc
    constructor
    · show h.xCentre = 0
      nlinarith [sq_nonneg h.xCentre, sq_nonneg h.yCentre]
    · show h.yCentre = 0
      nlinarith [sq_nonneg h.xCentre, sq_nonneg h.yCentre]
  constructor
  · intro hno
    rw [getPointOnCircle, if_neg hrad']
    simp only [getPointOnCircle_circle]
    rw [if_pos]
    refine Or.inr ?_
    by_contra hgt
    push_neg at hgt
    obtain ⟨⟨m1, m2⟩, -⟩ := circleCandidates_on h R hd2 hgt
    exact hno ⟨(circleCandidates h R).1, m1, m2⟩
  · intro t pt hsome
    rw [getPointOnCircle, if_neg hrad'] at hsome
    simp only [getPointOnCircle_circle] at hsome
    by_cases hcond : h.xCentre ^ 2 + h.yCentre ^ 2 = 0 ∨
        R ^ 2 * (h.xCentre ^ 2 + h.yCentre ^ 2) -
          ((h.xCentre ^ 2 + h.yCentre ^ 2 + R ^ 2 - h.radius ^ 2) / 2) ^ 2 < 0
    · rw [if_pos hcond] at hsome
      cases hsome
    · rw [if_neg hcond] at hsome
      push_neg at hcond
      obtain ⟨-, hge⟩ := hcond
      obtain ⟨⟨-, m12⟩, ⟨-, m22⟩⟩ := circleCandidates_on h R hd2 hge
      by_cases hle : fwdAngle h ref (circleCandidates h R).1 ≤
          fwdAngle h ref (circleCandidates h R).2
      · rw [if_pos hle] at hsome
        obtain ⟨-, hpt⟩ := Prod.mk.injEq .. ▸ Option.some.inj hsome
        subst hpt
        refine ⟨?_, Or.inl (by simp), ?_, ?_⟩
        · simpa [m12] using Real.sqrt_sq hR
        · simp
        · simpa using hle
      · rw [if_neg hle] at hsome
        obtain ⟨-, hpt⟩ := Prod.mk.injEq .. ▸ Option.some.inj hsome
        subst hpt
        refine ⟨?_, Or.inr (by simp), ?_, ?_⟩
        · simpa [m22] using Real.sqrt_sq hR
        · simpa using (not_le.mp hle).le
        · simp

/-- Matching candidate z: when the target lies exactly on the helix (its z is
the helix z at phase psi), the turn count chosen by rounding makes the
candidate z of getDistanceToPoint meet the target z exactly. -/
theorem distZ_on_helix (S z0 fr psi Z : ℝ) (k : ℤ) (hS : S ≠ 0)
    (hZ : Z = z0 - S * (psi - fr)) :
    |z0 + -S * (psi + 2 * Real.pi * k - fr +
        2 * Real.pi * (round ((Z - z0 - -S * (psi + 2 * Real.pi * k - fr)) /
          (2 * Real.pi * -S)))) - Z| = 0 := by
  subst hZ
  have hden : (2 : ℝ) * Real.pi * -S ≠ 0 :=
    mul_ne_zero (mul_ne_zero two_ne_zero Real.pi_ne_zero) (neg_ne_zero.mpr hS)
  have hA : (z0 - S * (psi - fr) - z0 - -S * (psi + 2 * Real.pi * k - fr)) /
      (2 * Real.pi * -S) = ((-k : ℤ) : ℝ) := by
    rw [div_eq_iff hden]
    push_cast
    ring
  rw [hA, round_intCast, abs_eq_zero]
  push_cast
  ring

/-- Vanishing minimum: the true minimum over path length of the 3D distance
from the helix to a point of the helix itself is 0 -- the infimum of a family
of nonnegative values that attains 0 at the target's own phase. -/
theorem dist3D_on_helix (h : HelixClass) (psi : ℝ) :
    dist3D h (helixPoint h psi) = 0 := by
  apply le_antisymm
  · apply csInf_le
    · refine ⟨0, ?_⟩
      rintro x ⟨phi, rfl⟩
      exact Real.sqrt_nonneg _
    · exact ⟨psi, by simp⟩
  · apply le_csInf (Set.range_nonempty _)
    rintro b ⟨phi, rfl⟩
    exact Real.sqrt_nonneg _

/-- C7: the first component returned by getDistanceToPoint is exactly the
transverse distance from the target to the circle,
|dist(target_xy, centre) - radius|, and for a target lying exactly on the
helix (built by evaluating the helix at a known phase) all three returned
distances are exactly 0 (hypothesis: positive radius). -/
theorem getDistanceToPoint_spec (h : HelixClass) (xPoint : V3) (psi : ℝ)
    (hR : 0 < getRadius h) :
    (getDistanceToPoint h xPoint).1 =
      |Real.sqrt ((xPoint.1 - getXC h) ^ 2 + (xPoint.2.1 - getYC h) ^ 2) -
        getRadius h| ∧
    getDistanceToPoint h (helixPoint h psi) = (0, 0, 0) := by
  have hRr : 0 < h.radius := hR
  refine ⟨rfl, ?_⟩
  obtain ⟨k, hk⟩ := atan2_rot h.radius psi hRr
  have hc2 : (h.radius * Real.cos psi) ^ 2 + (h.radius * Real.sin psi) ^ 2 =
      h.radius ^ 2 := by
    nlinarith [Real.sin_sq_add_cos_sq psi]
  simp only [getDistanceToPoint, Prod.mk.injEq]
  refine ⟨?_, ?_, dist3D_on_helix h psi⟩
  · simp only [helixPoint]
    rw [add_sub_cancel_left, add_sub_cancel_left, hc2, Real.sqrt_sq hRr.le,
      sub_self, abs_zero]
  · simp only [helixPoint]
    rw [add_sub_cancel_left, add_sub_cancel_left, hk]
    by_cases hp : -(rotSign h.charge h.bField * h.radius * h.tanLambda) = 0
    · rw [if_pos hp]
      have h0 : rotSign h.charge h.bField * h.radius * h.tanLambda = 0 :=
        neg_eq_zero.mp hp
      rw [zAtPhase, h0]
      simp
    · rw [if_neg hp]
      have hS : rotSign h.charge h.bField * h.radius * h.tanLambda ≠ 0 :=
        fun hh => hp (by rw [hh, neg_zero])
      exact distZ_on_helix (rotSign h.charge h.bField * h.radius * h.tanLambda)
        h.referencePoint.2.2 (phiOf h h.referencePoint.1 h.referencePoint.2.1) psi
        (zAtPhase h psi) k hS rfl

/-- Concrete canonical helix used by several witnesses: circle centre (5, 0),
radius 3, field 1 T, charge +1, flat (tanLambda 0), reference point (2, 0, 0)
at the PCA. -/
noncomputable def sampleHelix : HelixClass :=
  Initialize_Canonical HelixClass.init (Real.pi / 2) (-2) 0 (1 / 3) 0 1

theorem sampleHelix_sign : Real.sign ((1 : ℝ) / 3) = 1 :=
  Real.sign_of_pos (by norm_num)

theorem sampleHelix_radius : sampleHelix.radius = 3 := by
  simp only [sampleHelix, Initialize_Canonical, Canon.radius]
  rw [show |(1 : ℝ) / 3| = 1 / 3 from abs_of_pos (by norm_num)]
  norm_num

theorem sampleHelix_xCentre : sampleHelix.xCentre = 5 := by
  simp only [sampleHelix, Initialize_Canonical, Canon.xCentre, Canon.xPCA, Canon.radius,
    sampleHelix_sign, one_mul, sub_self, Real.cos_zero, Real.sin_pi_div_two]
  rw [show |(1 : ℝ) / 3| = 1 / 3 from abs_of_pos (by norm_num)]
  norm_num

theorem sampleHelix_yCentre : sampleHelix.yCentre = 0 := by
  simp only [sampleHelix, Initialize_Canonical, Canon.yCentre, Canon.yPCA, Canon.radius,
    sampleHelix_sign, one_mul, sub_self, Real.sin_zero, Real.cos_pi_div_two]
  norm_num

theorem sampleHelix_pxy : sampleHelix.pxy = 3 * FCT := by
  simp only [sampleHelix, Initialize_Canonical, Canon.pxy, Canon.radius]
  rw [show |(1 : ℝ) / 3| = 1 / 3 from abs_of_pos (by norm_num), abs_one]
  ring

theorem sampleHelix_tanLambda : sampleHelix.tanLambda = 0 := rfl

theorem sampleHelix_charge : sampleHelix.charge = 1 := by
  simp only [sampleHelix, Initialize_Canonical, sampleHelix_sign, Real.sign_one, one_mul]

theorem sampleHelix_bField : sampleHelix.bField = 1 := rfl

theorem sampleHelix_refPoint : sampleHelix.referencePoint = (2, 0, 0) := by
  simp only [sampleHelix, Initialize_Canonical, Canon.xPCA, Canon.yPCA,
    Real.sin_pi_div_two, Real.cos_pi_div_two]
  norm_num

theorem sampleHelix_fwdAngle_ref : fwdAngle sampleHelix (2, 0, 0) (2, 0) = 0 := by
  rw [fwdAngle]
  dsimp only
  rw [sub_self, mul_zero]
  exact toIcoMod_apply_left Real.two_pi_pos 0

theorem sampleHelix_candidates : circleCandidates sampleHelix 2 = ((2, 0), (2, 0)) := by
  simp only [circleCandidates, sampleHelix_xCentre, sampleHelix_yCentre, sampleHelix_radius]
  norm_num

/-- C7 witness: the theorem applied to the concrete sample helix, the target
point (1, 1, 1) for the distance formula, and phase 0 for the on-helix
target. -/
theorem getDistanceToPoint_spec_witness :
    0 < getRadius sampleHelix ∧
    ((getDistanceToPoint sampleHelix (1, 1, 1)).1 =
      |Real.sqrt (((1 : ℝ) - getXC sampleHelix) ^ 2 +
          ((1 : ℝ) - getYC sampleHelix) ^ 2) - getRadius sampleHelix| ∧
    getDistanceToPoint sampleHelix (helixPoint sampleHelix 0) = (0, 0, 0)) := by
  have hR : 0 < getRadius sampleHelix := by
    show (0 : ℝ) < sampleHelix.radius
    rw [sampleHelix_radius]
    norm_num
  exact ⟨hR, getDistanceToPoint_spec sampleHelix (1, 1, 1) 0 hR⟩

/-- C8: on the circle branch (nondegenerate radius), any point returned by
getPointInXY is one of the two circle-line intersection candidates, its
forward arc angle from the reference point along the direction of travel is no
larger than that of either candidate, and the returned scalar is the forward
arc angle times radius over pxy (so nonnegative there); on the straight-line
branch (radius 0) the returned scalar is the signed line parameter, negative
exactly when the intersection lies behind the reference point along the
direction of motion. -/
theorem getPointInXY_branch_spec (h : HelixClass) (x0 y0 ax ay : ℝ) (ref : V3) :
    (getRadius h ≠ 0 → ∀ t pt, getPointInXY h x0 y0 ax ay ref = some (t, pt) →
      ((pt.1, pt.2.1) = (xyCandidates h x0 y0 ax ay).1 ∨
        (pt.1, pt.2.1) = (xyCandidates h x0 y0 ax ay).2) ∧
      fwdAngle h ref (pt.1, pt.2.1) ≤
        fwdAngle h ref (xyCandidates h x0 y0 ax ay).1 ∧
      fwdAngle h ref (pt.1, pt.2.1) ≤
        fwdAngle h ref (xyCandidates h x0 y0 ax ay).2 ∧
      t = getRadius h * fwdAngle h ref (pt.1, pt.2.1) / getPXY h) ∧
    (getRadius h = 0 → ∀ t pt, getPointInXY h x0 y0 ax ay ref = some (t, pt) →
      (t < 0 ↔ (pt.1 - ref.1) * (getMomentum h).1 +
        (pt.2.1 - ref.2.1) * (getMomentum h).2.1 < 0)) := by
  constructor
  · intro hrad t pt hsome
    rw [getPointInXY, if_neg (show h.radius ≠ 0 from hrad)] at hsome
    simp only [getPointInXY_circle] at hsome
    by_cases hcond : ax ^ 2 + ay ^ 2 = 0 ∨
        (-ay * (x0 - h.xCentre) + ax * (y0 - h.yCentre)) ^ 2 -
          (ax ^ 2 + ay ^ 2) *
            ((x0 - h.xCentre) ^ 2 + (y0 - h.yCentre) ^ 2 - h.radius ^ 2) < 0
    · rw [if_pos hcond] at hsome
      cases hsome
    · rw [if_neg hcond] at hsome
      by_cases hle : fwdAngle h ref (xyCandidates h x0 y0 ax ay).1 ≤
          fwdAngle h ref (xyCandidates h x0 y0 ax ay).2
      · rw [if_pos hle] at hsome
        obtain ⟨ht, hpt⟩ := Prod.mk.injEq .. ▸ Option.some.inj hsome
        subst hpt
        subst ht
        refine ⟨Or.inl (by simp), by simp, by simpa using hle, ?_⟩
        simp [min_eq_left hle, getRadius, getPXY]
      · rw [if_neg hle] at hsome
        obtain ⟨ht, hpt⟩ := Prod.mk.injEq .. ▸ Option.some.inj hsome
        subst hpt
        subst ht
        refine ⟨Or.inr (by simp), by simpa using (not_le.mp hle).le, by simp, ?_⟩
        simp [min_eq_right (not_le.mp hle).le, getRadius, getPXY]
  · intro hrad t pt hsome
    rw [getPointInXY, if_pos (show h.radius = 0 from hrad)] at hsome
    simp only [getPointInXY_line] at hsome
    by_cases hden : h.momentum.1 * ax + h.momentum.2.1 * ay = 0
    · rw [if_pos hden] at hsome
      cases hsome
    · rw [if_neg hden] at hsome
      obtain ⟨ht, hpt⟩ := Prod.mk.injEq .. ▸ Option.some.inj hsome
      subst hpt
      subst ht
      have hne : ¬(h.momentum.1 = 0 ∧ h.momentum.2.1 = 0) := by
        rintro ⟨h1, h2⟩
        apply hden
        rw [h1, h2]
        ring
      have hu : 0 < h.momentum.1 ^ 2 + h.momentum.2.1 ^ 2 := by
        rcases not_and_or.mp hne with hh | hh
        · have h3 : 0 < h.momentum.1 ^ 2 := by positivity
          nlinarith [sq_nonneg h.momentum.2.1]
        · have h3 : 0 < h.momentum.2.1 ^ 2 := by positivity
          nlinarith [sq_nonneg h.momentum.1]
      dsimp only
      simp only [getMomentum]
      rw [add_sub_cancel_left, add_sub_cancel_left,
        show ((x0 - ref.1) * ax + (y0 - ref.2.1) * ay) /
              (h.momentum.1 * ax + h.momentum.2.1 * ay) * h.momentum.1 *
                h.momentum.1 +
            ((x0 - ref.1) * ax + (y0 - ref.2.1) * ay) /
              (h.momentum.1 * ax + h.momentum.2.1 * ay) * h.momentum.2.1 *
                h.momentum.2.1 =
          ((x0 - ref.1) * ax + (y0 - ref.2.1) * ay) /
              (h.momentum.1 * ax + h.momentum.2.1 * ay) *
            (h.momentum.1 ^ 2 + h.momentum.2.1 ^ 2) by ring]
      constructor
      · intro hh
        exact mul_neg_of_neg_of_pos hh hu
      · intro hh
        by_contra hc
        push_neg at hc
        nlinarith [mul_nonneg hc hu.le]

/-! Geometry of the Cartesian initializer, used for the round-trip claim. -/

theorem vp_pxy_pos (mom : V3) (hmom : ¬(mom.1 = 0 ∧ mom.2.1 = 0)) :
    0 < VP.pxy mom := by
  rw [VP.pxy]
  apply Real.sqrt_pos.mpr
  rcases not_and_or.mp hmom with hh | hh
  · have h1 : 0 < mom.1 ^ 2 := by positivity
    nlinarith [sq_nonneg mom.2.1]
  · have h1 : 0 < mom.2.1 ^ 2 := by positivity
    nlinarith [sq_nonneg mom.1]

theorem vp_radius_pos (mom : V3) (B : ℝ) (hmom : ¬(mom.1 = 0 ∧ mom.2.1 = 0))
    (hB : B ≠ 0) : 0 < VP.radius mom B :=
  div_pos (vp_pxy_pos mom hmom) (mul_pos FCT_pos (abs_pos.mpr hB))

theorem vp_dCentre_pos (pos mom : V3) (q B : ℝ)
    (hc : ¬(VP.xCentre pos mom q B = 0 ∧ VP.yCentre pos mom q B = 0)) :
    0 < VP.dCentre pos mom q B := by
  rw [VP.dCentre]
  apply Real.sqrt_pos.mpr
  rcases not_and_or.mp hc with hh | hh
  · have h1 : 0 < VP.xCentre pos mom q B ^ 2 := by positivity
    nlinarith [sq_nonneg (VP.yCentre pos mom q B)]
  · have h1 : 0 < VP.yCentre pos mom q B ^ 2 := by positivity
    nlinarith [sq_nonneg (VP.xCentre pos mom q B)]

theorem vp_cos_phiPCA (pos mom : V3) (q B : ℝ)
    (hc : ¬(VP.xCentre pos mom q B = 0 ∧ VP.yCentre pos mom q B = 0)) :
    Real.cos (VP.phiPCA pos mom q B) =
      -(VP.xCentre pos mom q B) / VP.dCentre pos mom q B := by
  rw [VP.phiPCA,
    atan2_cos (by rintro ⟨ha, hb⟩; exact hc ⟨neg_eq_zero.mp ha, neg_eq_zero.mp hb⟩),
    neg_sq, neg_sq, VP.dCentre]

theorem vp_sin_phiPCA (pos mom : V3) (q B : ℝ) :
    Real.sin (VP.phiPCA pos mom q B) =
      -(VP.yCentre pos mom q B) / VP.dCentre pos mom q B := by
  rw [VP.phiPCA, atan2_sin, neg_sq, neg_sq, VP.dCentre]

theorem vp_xCentre_eq (pos mom : V3) (q B : ℝ)
    (hc : ¬(VP.xCentre pos mom q B = 0 ∧ VP.yCentre pos mom q B = 0)) :
    VP.xCentre pos mom q B =
      -(VP.dCentre pos mom q B * Real.cos (VP.phiPCA pos mom q B)) := by
  rw [vp_cos_phiPCA pos mom q B hc]
  field_simp [(vp_dCentre_pos pos mom q B hc).ne']

theorem vp_yCentre_eq (pos mom : V3) (q B : ℝ)
    (hc : ¬(VP.xCentre pos mom q B = 0 ∧ VP.yCentre pos mom q B = 0)) :
    VP.yCentre pos mom q B =
      -(VP.dCentre pos mom q B * Real.sin (VP.phiPCA pos mom q B)) := by
  rw [vp_sin_phiPCA pos mom q B]
  field_simp [(vp_dCentre_pos pos mom q B hc).ne']

theorem vp_xAtPCA_eq (pos mom : V3) (q B : ℝ)
    (hc : ¬(VP.xCentre pos mom q B = 0 ∧ VP.yCentre pos mom q B = 0)) :
    VP.xAtPCA pos mom q B =
      (VP.radius mom B - VP.dCentre pos mom q B) *
        Real.cos (VP.phiPCA pos mom q B) := by
  rw [VP.xAtPCA, vp_xCentre_eq pos mom q B hc]
  ring

theorem vp_yAtPCA_eq (pos mom : V3) (q B : ℝ)
    (hc : ¬(VP.xCentre pos mom q B = 0 ∧ VP.yCentre pos mom q B = 0)) :
    VP.yAtPCA pos mom q B =
      (VP.radius mom B - VP.dCentre pos mom q B) *
        Real.sin (VP.phiPCA pos mom q B) := by
  rw [VP.yAtPCA, vp_yCentre_eq pos mom q B hc]
  ring

theorem vp_sign_omega (mom : V3) (q B : ℝ) (hq : q = 1 ∨ q = -1) (hB : B ≠ 0)
    (hmom : ¬(mom.1 = 0 ∧ mom.2.1 = 0)) :
    Real.sign (VP.omega mom q B) = rotSign q B := by
  have hrad := vp_radius_pos mom B hmom hB
  rcases rotSign_pm hq hB with h1 | h1 <;> rw [VP.omega, h1]
  · exact Real.sign_of_pos (div_pos one_pos hrad)
  · exact Real.sign_of_neg (div_neg_of_neg_of_pos (by norm_num) hrad)

theorem vp_abs_omega (mom : V3) (q B : ℝ) (hq : q = 1 ∨ q = -1) (hB : B ≠ 0)
    (hmom : ¬(mom.1 = 0 ∧ mom.2.1 = 0)) :
    |VP.omega mom q B| = 1 / VP.radius mom B := by
  have hrad := vp_radius_pos mom B hmom hB
  rcases rotSign_pm hq hB with h1 | h1 <;> rw [VP.omega, h1]
  · exact abs_of_pos (div_pos one_pos hrad)
  · rw [show (-1 : ℝ) / VP.radius mom B = -(1 / VP.radius mom B) by ring, abs_neg]
    exact abs_of_pos (div_pos one_pos hrad)

theorem vp_cos_phi0 (pos mom : V3) (q B : ℝ)
    (hs : rotSign q B = 1 ∨ rotSign q B = -1) :
    Real.cos (VP.phi0 pos mom q B) =
      rotSign q B * Real.sin (VP.phiPCA pos mom q B) := by
  rw [VP.phi0]
  exact cos_sub_sgn_half_pi _ hs

theorem vp_sin_phi0 (pos mom : V3) (q B : ℝ)
    (hs : rotSign q B = 1 ∨ rotSign q B = -1) :
    Real.sin (VP.phi0 pos mom q B) =
      -(rotSign q B * Real.cos (VP.phiPCA pos mom q B)) := by
  rw [VP.phi0]
  exact sin_sub_sgn_half_pi _ hs

/-- C1 (amended): the Initialize_VP to Initialize_Canonical round trip, for
unit charge, nonzero field, nonzero transverse momentum and circle centre away
from the origin, reproduces exactly (in the real model) the five canonical
parameters, the radius, the circle centre, the transverse momentum and the z
component of the momentum; the rebuilt reference point is the PCA point of the
original helix; and the full momentum and reference point are reproduced
exactly when the original reference point is itself the PCA point.  (As the
counterexample shows, the momentum and reference point are NOT reproduced for
a general reference point, so the claim as stated is false.) -/
theorem roundtrip_vp_canonical (h0 h0' : HelixClass) (pos mom : V3) (q B : ℝ)
    (h1 h2 : HelixClass) (hh1 : h1 = Initialize_VP h0 pos mom q B)
    (hh2 : h2 = Initialize_Canonical h0' (getPhi0 h1) (getD0 h1) (getZ0 h1)
      (getOmega h1) (getTanLambda h1) B)
    (hq : q = 1 ∨ q = -1) (hB : B ≠ 0) (hmom : ¬(mom.1 = 0 ∧ mom.2.1 = 0))
    (hc : ¬(getXC h1 = 0 ∧ getYC h1 = 0)) :
    (getPhi0 h2 = getPhi0 h1 ∧ getD0 h2 = getD0 h1 ∧ getZ0 h2 = getZ0 h1 ∧
      getOmega h2 = getOmega h1 ∧ getTanLambda h2 = getTanLambda h1) ∧
    getRadius h2 = getRadius h1 ∧
    (getXC h2 = getXC h1 ∧ getYC h2 = getYC h1) ∧
    getPXY h2 = getPXY h1 ∧
    (getMomentum h2).2.2 = (getMomentum h1).2.2 ∧
    getReferencePoint h2 = (h1.xAtPCA, h1.yAtPCA, getZ0 h1) ∧
    (pos.1 = h1.xAtPCA ∧ pos.2.1 = h1.yAtPCA →
      getMomentum h2 = getMomentum h1 ∧
      getReferencePoint h2 = getReferencePoint h1) := by
  subst hh2
  subst hh1
  have hs := rotSign_pm hq hB
  have hpxy : 0 < VP.pxy mom := vp_pxy_pos mom hmom
  have hrad : 0 < VP.radius mom B := vp_radius_pos mom B hmom hB
  have hc' : ¬(VP.xCentre pos mom q B = 0 ∧ VP.yCentre pos mom q B = 0) := hc
  have hR2 : Canon.radius (VP.omega mom q B) = VP.radius mom B := by
    rw [Canon.radius, vp_abs_omega mom q B hq hB hmom, one_div_one_div]
  have hPXY2 : Canon.pxy (VP.omega mom q B) B = VP.pxy mom := by
    rw [Canon.pxy, hR2, VP.radius, ← mul_div_assoc]
    exact mul_div_cancel_left₀ _ (mul_pos FCT_pos (abs_pos.mpr hB)).ne'
  have hpz : VP.tanLambda mom * Canon.pxy (VP.omega mom q B) B = mom.2.2 := by
    rw [hPXY2, VP.tanLambda]
    exact div_mul_cancel₀ _ hpxy.ne'
  have hxPCA2 : Canon.xPCA (VP.phi0 pos mom q B) (VP.d0 pos mom q B) =
      VP.xAtPCA pos mom q B := by
    rw [Canon.xPCA, vp_sin_phi0 pos mom q B hs, VP.d0,
      vp_xAtPCA_eq pos mom q B hc']
    rcases hs with h1 | h1 <;> rw [h1] <;> ring
  have hyPCA2 : Canon.yPCA (VP.phi0 pos mom q B) (VP.d0 pos mom q B) =
      VP.yAtPCA pos mom q B := by
    rw [Canon.yPCA, vp_cos_phi0 pos mom q B hs, VP.d0,
      vp_yAtPCA_eq pos mom q B hc']
    rcases hs with h1 | h1 <;> rw [h1] <;> ring
  have hsub : VP.phi0 pos mom q B - Real.sign (VP.omega mom q B) * (Real.pi / 2) =
      VP.phiPCA pos mom q B - rotSign q B * Real.pi := by
    rw [VP.phi0, vp_sign_omega mom q B hq hB hmom]
    ring
  have hXC2 : Canon.xCentre (VP.phi0 pos mom q B) (VP.d0 pos mom q B)
      (VP.omega mom q B) = VP.xCentre pos mom q B := by
    rw [Canon.xCentre, hR2, hxPCA2, hsub, cos_sub_sgn_pi _ hs,
      vp_xAtPCA_eq pos mom q B hc', vp_xCentre_eq pos mom q B hc']
    ring
  have hYC2 : Canon.yCentre (VP.phi0 pos mom q B) (VP.d0 pos mom q B)
      (VP.omega mom q B) = VP.yCentre pos mom q B := by
    rw [Canon.yCentre, hR2, hyPCA2, hsub, sin_sub_sgn_pi _ hs,
      vp_yAtPCA_eq pos mom q B hc', vp_yCentre_eq pos mom q B hc']
    ring
  refine ⟨⟨rfl, rfl, rfl, rfl, rfl⟩, hR2, ⟨hXC2, hYC2⟩, hPXY2, hpz, ?_, ?_⟩
  · show (Canon.xPCA (VP.phi0 pos mom q B) (VP.d0 pos mom q B),
        Canon.yPCA (VP.phi0 pos mom q B) (VP.d0 pos mom q B),
        VP.z0 pos mom q B) =
      (VP.xAtPCA pos mom q B, VP.yAtPCA pos mom q B, VP.z0 pos mom q B)
    rw [hxPCA2, hyPCA2]
  · rintro ⟨hpx, hpy⟩
    have hpx' : pos.1 = VP.xAtPCA pos mom q B := hpx
    have hpy' : pos.2.1 = VP.yAtPCA pos mom q B := hpy
    have hcosMsub : Real.cos (VP.phiMom mom - rotSign q B * (Real.pi / 2)) =
        -Real.cos (VP.phiPCA pos mom q B) := by
      have hxc := vp_xCentre_eq pos mom q B hc'
      rw [VP.xCentre, hpx', vp_xAtPCA_eq pos mom q B hc'] at hxc
      have h3 : VP.radius mom B *
          Real.cos (VP.phiMom mom - rotSign q B * (Real.pi / 2)) =
          VP.radius mom B * -Real.cos (VP.phiPCA pos mom q B) := by
        linear_combination hxc
      exact mul_left_cancel₀ hrad.ne' h3
    have hsinMsub : Real.sin (VP.phiMom mom - rotSign q B * (Real.pi / 2)) =
        -Real.sin (VP.phiPCA pos mom q B) := by
      have hyc := vp_yCentre_eq pos mom q B hc'
      rw [VP.yCentre, hpy', vp_yAtPCA_eq pos mom q B hc'] at hyc
      have h3 : VP.radius mom B *
          Real.sin (VP.phiMom mom - rotSign q B * (Real.pi / 2)) =
          VP.radius mom B * -Real.sin (VP.phiPCA pos mom q B) := by
        linear_combination hyc
      exact mul_left_cancel₀ hrad.ne' h3
    have hcosM : Real.cos (VP.phiMom mom) =
        rotSign q B * Real.sin (VP.phiPCA pos mom q B) := by
      have h4 := hsinMsub
      rw [sin_sub_sgn_half_pi _ hs] at h4
      rcases hs with h1 | h1 <;> rw [h1] at h4 ⊢ <;> linarith
    have hsinM : Real.sin (VP.phiMom mom) =
        -(rotSign q B * Real.cos (VP.phiPCA pos mom q B)) := by
      have h4 := hcosMsub
      rw [cos_sub_sgn_half_pi _ hs] at h4
      rcases hs with h1 | h1 <;> rw [h1] at h4 ⊢ <;> linarith
    have hm1 : mom.1 = VP.pxy mom * Real.cos (VP.phiMom mom) := by
      rw [VP.phiMom, atan2_cos hmom,
        show Real.sqrt (mom.1 ^ 2 + mom.2.1 ^ 2) = VP.pxy mom from rfl,
        ← mul_div_assoc]
      exact (mul_div_cancel_left₀ _ hpxy.ne').symm
    have hm2 : mom.2.1 = VP.pxy mom * Real.sin (VP.phiMom mom) := by
      rw [VP.phiMom, atan2_sin,
        show Real.sqrt (mom.1 ^ 2 + mom.2.1 ^ 2) = VP.pxy mom from rfl,
        ← mul_div_assoc]
      exact (mul_div_cancel_left₀ _ hpxy.ne').symm
    have hphiref : VP.phiRefPt pos mom q B = VP.phiPCA pos mom q B := by
      have e1 : pos.1 - VP.xCentre pos mom q B =
          VP.radius mom B * Real.cos (VP.phiPCA pos mom q B) := by
        rw [hpx', vp_xAtPCA_eq pos mom q B hc', vp_xCentre_eq pos mom q B hc']
        ring
      have e2 : pos.2.1 - VP.yCentre pos mom q B =
          VP.radius mom B * Real.sin (VP.phiPCA pos mom q B) := by
        rw [hpy', vp_yAtPCA_eq pos mom q B hc', vp_yCentre_eq pos mom q B hc']
        ring
      rw [VP.phiRefPt, e1, e2]
      exact atan2_rot_Ioc (VP.radius mom B) _ hrad
        (by rw [VP.phiPCA]; exact atan2_mem_Ioc _ _)
    constructor
    · show (Canon.pxy (VP.omega mom q B) B * Real.cos (VP.phi0 pos mom q B),
          Canon.pxy (VP.omega mom q B) B * Real.sin (VP.phi0 pos mom q B),
          VP.tanLambda mom * Canon.pxy (VP.omega mom q B) B) = mom
      rw [Prod.ext_iff, Prod.ext_iff]
      refine ⟨?_, ?_, hpz⟩
      · show Canon.pxy (VP.omega mom q B) B * Real.cos (VP.phi0 pos mom q B) =
          mom.1
        rw [hPXY2, vp_cos_phi0 pos mom q B hs, hm1, hcosM]
      · show Canon.pxy (VP.omega mom q B) B * Real.sin (VP.phi0 pos mom q B) =
          mom.2.1
        rw [hPXY2, vp_sin_phi0 pos mom q B hs, hm2, hsinM]
    · show (Canon.xPCA (VP.phi0 pos mom q B) (VP.d0 pos mom q B),
          Canon.yPCA (VP.phi0 pos mom q B) (VP.d0 pos mom q B),
          VP.z0 pos mom q B) = pos
      rw [Prod.ext_iff, Prod.ext_iff]
      refine ⟨?_, ?_, ?_⟩
      · show Canon.xPCA (VP.phi0 pos mom q B) (VP.d0 pos mom q B) = pos.1
        rw [hxPCA2, hpx']
      · show Canon.yPCA (VP.phi0 pos mom q B) (VP.d0 pos mom q B) = pos.2.1
        rw [hyPCA2, hpy']
      · show VP.z0 pos mom q B = pos.2.2
        rw [VP.z0, hphiref, sub_self, mul_zero, sub_zero]

/-! Concrete inputs for the round-trip witness and counterexample: momentum
(0, 1, 0), charge +1, field 1/FCT (so the circle radius is 1). -/

theorem unitMom_pxy : VP.pxy ((0 : ℝ), 1, 0) = 1 := by
  rw [VP.pxy]
  norm_num

theorem unitMom_radius : VP.radius ((0 : ℝ), 1, 0) (1 / FCT) = 1 := by
  rw [VP.radius, unitMom_pxy, abs_of_pos (one_div_pos.mpr FCT_pos), mul_one_div,
    div_self FCT_pos.ne']
  norm_num

theorem unitMom_sign : rotSign 1 ((1 : ℝ) / FCT) = 1 := by
  rw [rotSign, one_mul]
  exact Real.sign_of_pos (one_div_pos.mpr FCT_pos)

theorem unitMom_phiMom : VP.phiMom ((0 : ℝ), 1, 0) = Real.pi / 2 := by
  show atan2 1 0 = Real.pi / 2
  rw [atan2, show (⟨(0 : ℝ), (1 : ℝ)⟩ : ℂ) = Complex.I by
    rw [Complex.mk_eq_add_mul_I]
    simp]
  exact Complex.arg_I

theorem witVP_xCentre : VP.xCentre ((0 : ℝ), 0, 0) ((0 : ℝ), 1, 0) 1 (1 / FCT) = 1 := by
  rw [VP.xCentre, unitMom_radius, unitMom_phiMom, unitMom_sign,
    show Real.pi / 2 - 1 * (Real.pi / 2) = 0 by ring, Real.cos_zero]
  norm_num

theorem witVP_yCentre : VP.yCentre ((0 : ℝ), 0, 0) ((0 : ℝ), 1, 0) 1 (1 / FCT) = 0 := by
  rw [VP.yCentre, unitMom_radius, unitMom_phiMom, unitMom_sign,
    show Real.pi / 2 - 1 * (Real.pi / 2) = 0 by ring, Real.sin_zero]
  norm_num

theorem witVP_phiPCA :
    VP.phiPCA ((0 : ℝ), 0, 0) ((0 : ℝ), 1, 0) 1 (1 / FCT) = Real.pi := by
  rw [VP.phiPCA, witVP_xCentre, witVP_yCentre, neg_zero, atan2,
    show (⟨(-1 : ℝ), (0 : ℝ)⟩ : ℂ) = -1 by
      rw [Complex.mk_eq_add_mul_I]
      push_cast
      ring]
  exact Complex.arg_neg_one

theorem witVP_xAtPCA :
    VP.xAtPCA ((0 : ℝ), 0, 0) ((0 : ℝ), 1, 0) 1 (1 / FCT) = 0 := by
  rw [VP.xAtPCA, witVP_xCentre, witVP_phiPCA, unitMom_radius, Real.cos_pi]
  norm_num

theorem witVP_yAtPCA :
    VP.yAtPCA ((0 : ℝ), 0, 0) ((0 : ℝ), 1, 0) 1 (1 / FCT) = 0 := by
  rw [VP.yAtPCA, witVP_yCentre, witVP_phiPCA, unitMom_radius, Real.sin_pi]
  norm_num

/-- Cartesian helix of the round-trip witness: reference point at the origin,
which IS the point of closest approach (the circle of radius 1 centred at
(1, 0) passes through the origin). -/
noncomputable def witH1 : HelixClass :=
  Initialize_VP HelixClass.init (0, 0, 0) (0, 1, 0) 1 (1 / FCT)

/-- Canonical helix rebuilt from the canonical parameters of witH1. -/
noncomputable def witH2 : HelixClass :=
  Initialize_Canonical HelixClass.init (getPhi0 witH1) (getD0 witH1) (getZ0 witH1)
    (getOmega witH1) (getTanLambda witH1) (1 / FCT)

/-- C1 witness: the amended theorem applied at the concrete input with the
reference point at the PCA; every hypothesis is discharged and the momentum
and reference point round-trip exactly. -/
theorem roundtrip_vp_canonical_witness :
    (((1 : ℝ) = 1 ∨ (1 : ℝ) = -1) ∧ ((1 : ℝ) / FCT) ≠ 0 ∧
      ¬(((0 : ℝ), (1 : ℝ), (0 : ℝ)).1 = 0 ∧ ((0 : ℝ), (1 : ℝ), (0 : ℝ)).2.1 = 0) ∧
      ¬(getXC witH1 = 0 ∧ getYC witH1 = 0) ∧
      (((0 : ℝ), (0 : ℝ), (0 : ℝ)).1 = witH1.xAtPCA ∧
        ((0 : ℝ), (0 : ℝ), (0 : ℝ)).2.1 = witH1.yAtPCA)) ∧
    getRadius witH2 = getRadius witH1 ∧
    getMomentum witH2 = getMomentum witH1 ∧
    getReferencePoint witH2 = getReferencePoint witH1 := by
  have hq : (1 : ℝ) = 1 ∨ (1 : ℝ) = -1 := Or.inl rfl
  have hB : ((1 : ℝ) / FCT) ≠ 0 := (one_div_pos.mpr FCT_pos).ne'
  have hmom : ¬(((0 : ℝ), (1 : ℝ), (0 : ℝ)).1 = 0 ∧
      ((0 : ℝ), (1 : ℝ), (0 : ℝ)).2.1 = 0) := by
    rintro ⟨-, hb⟩
    norm_num at hb
  have hcw : ¬(getXC witH1 = 0 ∧ getYC witH1 = 0) := by
    rintro ⟨hx, -⟩
    rw [show getXC witH1 = 1 from witVP_xCentre] at hx
    norm_num at hx
  have hpca : ((0 : ℝ), (0 : ℝ), (0 : ℝ)).1 = witH1.xAtPCA ∧
      ((0 : ℝ), (0 : ℝ), (0 : ℝ)).2.1 = witH1.yAtPCA :=
    ⟨(show witH1.xAtPCA = 0 from witVP_xAtPCA).symm,
      (show witH1.yAtPCA = 0 from witVP_yAtPCA).symm⟩
  obtain ⟨h5, hrad, hcent, hpxy, hpz, href, himp⟩ :=
    roundtrip_vp_canonical HelixClass.init HelixClass.init (0, 0, 0) (0, 1, 0) 1
      (1 / FCT) witH1 witH2 rfl rfl hq hB hmom hcw
  obtain ⟨hmomEq, hrefEq⟩ := himp hpca
  exact ⟨⟨hq, hB, hmom, hcw, hpca⟩, hrad, hmomEq, hrefEq⟩

theorem cexVP_xCentre : VP.xCentre ((0 : ℝ), 5, 0) ((0 : ℝ), 1, 0) 1 (1 / FCT) = 1 := by
  rw [VP.xCentre, unitMom_radius, unitMom_phiMom, unitMom_sign,
    show Real.pi / 2 - 1 * (Real.pi / 2) = 0 by ring, Real.cos_zero]
  norm_num

theorem cexVP_yCentre : VP.yCentre ((0 : ℝ), 5, 0) ((0 : ℝ), 1, 0) 1 (1 / FCT) = 5 := by
  rw [VP.yCentre, unitMom_radius, unitMom_phiMom, unitMom_sign,
    show Real.pi / 2 - 1 * (Real.pi / 2) = 0 by ring, Real.sin_zero]
  norm_num

theorem cexVP_sinPCA :
    Real.sin (VP.phiPCA ((0 : ℝ), 5, 0) ((0 : ℝ), 1, 0) 1 (1 / FCT)) =
      -5 / Real.sqrt 26 := by
  rw [VP.phiPCA, cexVP_xCentre, cexVP_yCentre, atan2_sin]
  norm_num

theorem cexVP_omega : VP.omega ((0 : ℝ), 1, 0) 1 ((1 : ℝ) / FCT) = 1 := by
  rw [VP.omega, unitMom_sign, unitMom_radius]
  norm_num

theorem canonPxy_one : Canon.pxy 1 ((1 : ℝ) / FCT) = 1 := by
  rw [Canon.pxy, Canon.radius, abs_one, abs_of_pos (one_div_pos.mpr FCT_pos)]
  field_simp [FCT_pos.ne']

/-- Cartesian helix of the round-trip counterexample: reference point (0, 5, 0)
is NOT the point of closest approach of its circle (radius 1, centre (1, 5)). -/
noncomputable def cexH1 : HelixClass :=
  Initialize_VP HelixClass.init (0, 5, 0) (0, 1, 0) 1 (1 / FCT)

/-- Canonical helix rebuilt from the canonical parameters of cexH1. -/
noncomputable def cexH2 : HelixClass :=
  Initialize_Canonical HelixClass.init (getPhi0 cexH1) (getD0 cexH1) (getZ0 cexH1)
    (getOmega cexH1) (getTanLambda cexH1) (1 / FCT)

theorem cex_mom_x : (getMomentum cexH2).1 = -5 / Real.sqrt 26 := by
  show Canon.pxy (VP.omega ((0 : ℝ), 1, 0) 1 (1 / FCT)) (1 / FCT) *
      Real.cos (VP.phi0 ((0 : ℝ), 5, 0) ((0 : ℝ), 1, 0) 1 (1 / FCT)) =
    -5 / Real.sqrt 26
  rw [cexVP_omega, canonPxy_one, one_mul, VP.phi0, unitMom_sign,
    cos_sub_sgn_half_pi _ (Or.inl rfl), one_mul, cexVP_sinPCA]

/-- C1 counterexample: for the physically valid input with reference point
(0, 5, 0), momentum (0, 1, 0), charge +1, field 1/FCT, rebuilding a second
helix through Initialize_Canonical from the read-back canonical parameters
changes the x component of the momentum from 0 to -5/sqrt(26), a deviation of
about 0.98 of the momentum magnitude -- far beyond the claimed 1e-4 relative
tolerance. -/
theorem roundtrip_vp_canonical_cex :
    |(getMomentum cexH2).1 - (getMomentum cexH1).1| >
      1e-4 * Real.sqrt ((getMomentum cexH1).1 ^ 2 + (getMomentum cexH1).2.1 ^ 2 +
        (getMomentum cexH1).2.2 ^ 2) := by
  have hs26 : 0 < Real.sqrt 26 := Real.sqrt_pos.mpr (by norm_num)
  have h6 : Real.sqrt 26 < 6 := by
    rw [show (6 : ℝ) = Real.sqrt 36 by
      rw [show (36 : ℝ) = 6 ^ 2 by norm_num, Real.sqrt_sq (by norm_num : (0:ℝ) ≤ 6)]]
    exact Real.sqrt_lt_sqrt (by norm_num) (by norm_num)
  have hlt : (1e-4 : ℝ) < 5 / Real.sqrt 26 :=
    lt_trans (by norm_num) (div_lt_div_of_pos_left (by norm_num) hs26 h6)
  rw [cex_mom_x, show getMomentum cexH1 = ((0 : ℝ), (1 : ℝ), (0 : ℝ)) from rfl]
  dsimp only
  rw [sub_zero, show (-5 : ℝ) / Real.sqrt 26 = -(5 / Real.sqrt 26) by ring, abs_neg,
    abs_of_pos (div_pos (by norm_num) hs26),
    show ((0 : ℝ) ^ 2 + (1 : ℝ) ^ 2 + (0 : ℝ) ^ 2) = 1 by norm_num, Real.sqrt_one,
    mul_one]
  exact hlt

theorem sampleHelix_xyCandidates :
    xyCandidates sampleHelix 2 0 1 0 = ((2, 0), (2, 0)) := by
  simp only [xyCandidates, sampleHelix_xCentre, sampleHelix_yCentre, sampleHelix_radius]
  norm_num

/-- Concrete degenerate helix used by the line-branch witness: built by
Initialize_VP with field 0, so the trajectory is the straight line through the
origin along the momentum (1, 0, 0) and the stored radius is 0. -/
noncomputable def lineHelix : HelixClass :=
  Initialize_VP HelixClass.init (0, 0, 0) (1, 0, 0) 1 0

theorem lineHelix_radius : lineHelix.radius = 0 := by
  simp [lineHelix, Initialize_VP, VP.radius, VP.pxy]

theorem lineHelix_momentum : lineHelix.momentum = (1, 0, 0) := rfl

/-- C8 witness: the theorem applied twice.  Circle branch: the sample helix
(circle centre (5, 0), radius 3) against the vertical plane x = 2, tangent at
(2, 0), from the on-circle reference point (2, 0, 0); the returned point is
the (doubled) candidate and the scalar is 0.  Line branch: the degenerate
helix along (1, 0, 0) from the origin against the plane x = 2; the returned
scalar 2 is nonnegative exactly because the intersection lies ahead of the
reference point. -/
theorem getPointInXY_branch_spec_witness :
    (getRadius sampleHelix ≠ 0 ∧ getRadius lineHelix = 0) ∧
    ((((2 : ℝ), (0 : ℝ)) = (xyCandidates sampleHelix 2 0 1 0).1 ∨
        ((2 : ℝ), (0 : ℝ)) = (xyCandidates sampleHelix 2 0 1 0).2) ∧
      fwdAngle sampleHelix (2, 0, 0) ((2 : ℝ), (0 : ℝ)) ≤
        fwdAngle sampleHelix (2, 0, 0) (xyCandidates sampleHelix 2 0 1 0).1 ∧
      fwdAngle sampleHelix (2, 0, 0) ((2 : ℝ), (0 : ℝ)) ≤
        fwdAngle sampleHelix (2, 0, 0) (xyCandidates sampleHelix 2 0 1 0).2 ∧
      (0 : ℝ) = getRadius sampleHelix *
        fwdAngle sampleHelix (2, 0, 0) ((2 : ℝ), (0 : ℝ)) / getPXY sampleHelix) ∧
    ((2 : ℝ) < 0 ↔ ((2 : ℝ) - 0) * (getMomentum lineHelix).1 +
      ((0 : ℝ) - 0) * (getMomentum lineHelix).2.1 < 0) := by
  have hrad : getRadius sampleHelix ≠ 0 := by
    show sampleHelix.radius ≠ 0
    rw [sampleHelix_radius]
    norm_num
  have hsome1 : getPointInXY sampleHelix 2 0 1 0 (2, 0, 0) = some (0, (2, 0, 0)) := by
    rw [getPointInXY, if_neg (show sampleHelix.radius ≠ 0 from hrad)]
    simp only [getPointInXY_circle, sampleHelix_xCentre, sampleHelix_yCentre,
      sampleHelix_radius, sampleHelix_xyCandidates, sampleHelix_fwdAngle_ref,
      sampleHelix_pxy, sampleHelix_tanLambda]
    norm_num
  have hsome2 : getPointInXY lineHelix 2 0 1 0 (0, 0, 0) = some (2, (2, 0, 0)) := by
    rw [getPointInXY, if_pos lineHelix_radius]
    simp only [getPointInXY_line, lineHelix_momentum]
    norm_num
  exact ⟨⟨hrad, lineHelix_radius⟩,
    (getPointInXY_branch_spec sampleHelix 2 0 1 0 (2, 0, 0)).1 hrad 0 (2, 0, 0) hsome1,
    (getPointInXY_branch_spec lineHelix 2 0 1 0 (0, 0, 0)).2 lineHelix_radius 2
      (2, 0, 0) hsome2⟩

/-- C6 witness: the theorem applied twice to the concrete sample helix (circle
centre (5, 0), radius 3): the cylinder of radius 1 misses the circle and the
query returns none; the cylinder of radius 2 is internally tangent at (2, 0)
and the query returns that point, which lies at distance 2 from the origin. -/
theorem getPointOnCircle_spec_witness :
    (getRadius sampleHelix ≠ 0 ∧ ¬(getXC sampleHelix = 0 ∧ getYC sampleHelix = 0) ∧
      (0 : ℝ) ≤ 1 ∧ (0 : ℝ) ≤ 2) ∧
    getPointOnCircle sampleHelix 1 (2, 0, 0) = none ∧
    (Real.sqrt ((2 : ℝ) ^ 2 + (0 : ℝ) ^ 2) = 2 ∧
      (((2 : ℝ), (0 : ℝ)) = (circleCandidates sampleHelix 2).1 ∨
        ((2 : ℝ), (0 : ℝ)) = (circleCandidates sampleHelix 2).2) ∧
      fwdAngle sampleHelix (2, 0, 0) ((2 : ℝ), (0 : ℝ)) ≤
        fwdAngle sampleHelix (2, 0, 0) (circleCandidates sampleHelix 2).1 ∧
      fwdAngle sampleHelix (2, 0, 0) ((2 : ℝ), (0 : ℝ)) ≤
        fwdAngle sampleHelix (2, 0, 0) (circleCandidates sampleHelix 2).2) := by
  have hrad : getRadius sampleHelix ≠ 0 := by
    show sampleHelix.radius ≠ 0
    rw [sampleHelix_radius]
    norm_num
  have hc : ¬(getXC sampleHelix = 0 ∧ getYC sampleHelix = 0) := by
    rintro ⟨hx, -⟩
    rw [show getXC sampleHelix = 5 from sampleHelix_xCentre] at hx
    norm_num at hx
  have hno : ¬∃ p : ℝ × ℝ,
      (p.1 - getXC sampleHelix) ^ 2 + (p.2 - getYC sampleHelix) ^ 2 =
        getRadius sampleHelix ^ 2 ∧ p.1 ^ 2 + p.2 ^ 2 = (1 : ℝ) ^ 2 := by
    rintro ⟨p, h1, h2⟩
    rw [show getXC sampleHelix = 5 from sampleHelix_xCentre,
      show getYC sampleHelix = 0 from sampleHelix_yCentre,
      show getRadius sampleHelix = 3 from sampleHelix_radius] at h1
    nlinarith [sq_nonneg p.2, sq_nonneg (p.1 - 1)]
  have hsome : getPointOnCircle sampleHelix 2 (2, 0, 0) = some (0, (2, 0, 0)) := by
    rw [getPointOnCircle, if_neg (by rw [sampleHelix_radius]; norm_num)]
    simp only [getPointOnCircle_circle, sampleHelix_xCentre, sampleHelix_yCentre,
      sampleHelix_radius, sampleHelix_pxy, sampleHelix_tanLambda, sampleHelix_candidates,
      sampleHelix_fwdAngle_ref]
    norm_num
  exact ⟨⟨hrad, hc, by norm_num, by norm_num⟩,
    (getPointOnCircle_spec sampleHelix 1 (2, 0, 0) hrad hc (by norm_num)).1 hno,
    (getPointOnCircle_spec sampleHelix 2 (2, 0, 0) hrad hc (by norm_num)).2 0 (2, 0, 0) hsome⟩

/-- C9: the momentum written by getExtrapolatedMomentum has the same z
component as the stored momentum and the same transverse magnitude as the
stored pxy, for every input point (hypothesis: the stored pxy is nonnegative,
as every initializer guarantees). -/
theorem getExtrapolatedMomentum_spec (h : HelixClass) (pos : V3)
    (hp : 0 ≤ getPXY h) :
    (getExtrapolatedMomentum h pos).2.2 = (getMomentum h).2.2 ∧
    Real.sqrt ((getExtrapolatedMomentum h pos).1 ^ 2 +
        (getExtrapolatedMomentum h pos).2.1 ^ 2) = getPXY h := by
  refine ⟨rfl, ?_⟩
  simp only [getExtrapolatedMomentum, getPXY]
  have h1 : (h.pxy * Real.cos (phiOf h pos.1 pos.2.1 -
        rotSign h.charge h.bField * (Real.pi / 2))) ^ 2 +
      (h.pxy * Real.sin (phiOf h pos.1 pos.2.1 -
        rotSign h.charge h.bField * (Real.pi / 2))) ^ 2 = h.pxy ^ 2 := by
    nlinarith [Real.sin_sq_add_cos_sq (phiOf h pos.1 pos.2.1 -
      rotSign h.charge h.bField * (Real.pi / 2))]
  rw [h1]
  exact Real.sqrt_sq hp

/-- C9 witness: the theorem applied to a concrete canonical helix and the
concrete point (3, 4, 0). -/
theorem getExtrapolatedMomentum_spec_witness :
    0 ≤ getPXY (Initialize_Canonical HelixClass.init 0 0 0 1 0 1) ∧
    ((getExtrapolatedMomentum (Initialize_Canonical HelixClass.init 0 0 0 1 0 1)
        (3, 4, 0)).2.2 =
      (getMomentum (Initialize_Canonical HelixClass.init 0 0 0 1 0 1)).2.2 ∧
    Real.sqrt ((getExtrapolatedMomentum
          (Initialize_Canonical HelixClass.init 0 0 0 1 0 1) (3, 4, 0)).1 ^ 2 +
        (getExtrapolatedMomentum (Initialize_Canonical HelixClass.init 0 0 0 1 0 1)
            (3, 4, 0)).2.1 ^ 2) =
      getPXY (Initialize_Canonical HelixClass.init 0 0 0 1 0 1)) := by
  have hp : 0 ≤ getPXY (Initialize_Canonical HelixClass.init 0 0 0 1 0 1) := by
    norm_num [getPXY, Initialize_Canonical, Canon.pxy, Canon.radius, FCT]
  exact ⟨hp, getExtrapolatedMomentum_spec _ _ hp⟩

/-- Invariant of C3: the stored radius is the stored transverse momentum over
FCT times the stored field magnitude, the radius is nonnegative, and the
stored tanLambda is exactly pz over pxy. -/
def InitInvariant (h : HelixClass) : Prop :=
  getRadius h = getPXY h / (FCT * |h.bField|) ∧ 0 ≤ getRadius h ∧
    getTanLambda h = (getMomentum h).2.2 / getPXY h

/-- C3: after each of the three initializers the stored state satisfies
radius = pxy / (FCT |B|), radius nonnegative, and tanLambda = pz / pxy
(hypotheses: nonzero field, nonzero curvature for the canonical initializer,
positive radius argument for the slope initializer; the Cartesian initializer
needs no hypothesis at all). -/
theorem post_init_invariants (h0 : HelixClass) (pos mom : V3)
    (q B phi0 d0 z0 omega tanl xc yc R bZ phiz signPz zBegin : ℝ)
    (hB : B ≠ 0) (hom : omega ≠ 0) (hR : 0 < R) :
    InitInvariant (Initialize_VP h0 pos mom q B) ∧
    InitInvariant (Initialize_Canonical h0 phi0 d0 z0 omega tanl B) ∧
    InitInvariant (Initialize_BZ h0 xc yc R bZ phiz B signPz zBegin) := by
  have hFB : FCT * |B| ≠ 0 := by
    have := FCT_pos
    have := abs_pos.mpr hB
    positivity
  refine ⟨⟨rfl, ?_, rfl⟩, ⟨?_, ?_, ?_⟩, ⟨?_, hR.le, ?_⟩⟩
  · exact div_nonneg (Real.sqrt_nonneg _) (mul_nonneg FCT_pos.le (abs_nonneg B))
  · exact (mul_div_cancel_left₀ (Canon.radius omega) hFB).symm
  · show 0 ≤ Canon.radius omega
    rw [Canon.radius]
    positivity
  · show tanl = tanl * Canon.pxy omega B / Canon.pxy omega B
    have hp : Canon.pxy omega B ≠ 0 := by
      rw [Canon.pxy, Canon.radius]
      have h1 := FCT_pos
      have h2 := abs_pos.mpr hB
      have h3 := abs_pos.mpr hom
      positivity
    exact (mul_div_cancel_right₀ tanl hp).symm
  · exact (mul_div_cancel_left₀ R hFB).symm
  · show Bz.tanLambda R bZ signPz =
      Bz.tanLambda R bZ signPz * Bz.pxy R B / Bz.pxy R B
    have hp : Bz.pxy R B ≠ 0 := by
      rw [Bz.pxy]
      have h1 := FCT_pos
      have h2 := abs_pos.mpr hB
      positivity
    exact (mul_div_cancel_right₀ _ hp).symm

/-- C3 witness: the theorem applied at concrete arguments (field 1 T, charge
+1, momentum (3, 4, 12), curvature 1, radius 1). -/
theorem post_init_invariants_witness :
    ((1 : ℝ) ≠ 0 ∧ (1 : ℝ) ≠ 0 ∧ (0 : ℝ) < 1) ∧
    (InitInvariant (Initialize_VP HelixClass.init (1, 2, 3) (3, 4, 12) 1 1) ∧
    InitInvariant (Initialize_Canonical HelixClass.init 0 2 0 1 3 1) ∧
    InitInvariant (Initialize_BZ HelixClass.init 5 6 1 1 0 1 1 0)) :=
  ⟨⟨one_ne_zero, one_ne_zero, one_pos⟩,
    post_init_invariants HelixClass.init (1, 2, 3) (3, 4, 12) 1 1 0 2 0 1 3 5 6 1
      1 0 1 0 one_ne_zero one_ne_zero one_pos⟩
